import Mathlib

/-!
Verification of the ModelGate request-routing core against its
specification.  The definitions below are a shallow embedding of the Go
source under `internal/runtime/executor`, `internal/jsonutil`,
`internal/translator/kiro/claude` and the auth helpers: JSON payloads
become an inductive tree, gjson/sjson path operations become recursive
functions on that tree, Go `time.Duration` becomes `Int` nanoseconds,
Go `time.Time` becomes `Int` epoch seconds, and impure effects (random
session ids, network refresh) become explicit constructors.
-/

namespace ModelGate

/-- JSON value tree.  Numbers are modelled as integers: every numeric
field the verified code reads or writes (token budgets, retry counts)
is integral in the source. -/
inductive Json where
  | null : Json
  | bool (b : Bool) : Json
  | num (n : Int) : Json
  | str (s : String) : Json
  | arr (elems : List Json) : Json
  | obj (fields : List (String × Json)) : Json
deriving Repr, Inhabited

namespace Json

/-- Association-list lookup for object fields (Go JSON objects carry
unique keys, so first match is the match). -/
def lookupField : List (String × Json) → String → Option Json
  | [], _ => none
  | (k, v) :: rest, key => if k = key then some v else lookupField rest key

/-- Decimal value of a digit-character list (helper kept list-level so
concrete paths reduce inside the kernel). -/
def digitsVal (cs : List Char) : Nat :=
  cs.foldl (fun acc c => acc * 10 + (c.toNat - 48)) 0

/-- Test whether a path segment is a decimal array index, as gjson does. -/
def segIndex? (seg : String) : Option Nat :=
  match seg.data with
  | [] => none
  | cs =>
    if cs.all (fun c => c.isDigit) then some (digitsVal cs) else none

/-- Navigate one path segment of a gjson dotted path. -/
def getSeg : Json → String → Option Json
  | obj fields, seg => lookupField fields seg
  | arr elems, seg =>
    match segIndex? seg with
    | some i => elems.get? i
    | none => none
  | _, _ => none

/-- gjson `GetBytes` along a list of dotted-path segments. -/
def getSegs : Json → List String → Option Json
  | j, [] => some j
  | j, seg :: rest =>
    match getSeg j seg with
    | some j' => getSegs j' rest
    | none => none

/-- Replace or append an object field. -/
def setField : List (String × Json) → String → Json → List (String × Json)
  | [], key, v => [(key, v)]
  | (k, w) :: rest, key, v =>
    if k = key then (k, v) :: rest else (k, w) :: setField rest key v

/-- Remove an object field. -/
def removeField : List (String × Json) → String → List (String × Json)
  | [], _ => []
  | (k, w) :: rest, key =>
    if k = key then rest else (k, w) :: removeField rest key

/-- Replace the element of a list at an index, padding with `null`
when the index is past the end (sjson array semantics). -/
def setElem : List Json → Nat → Json → List Json
  | [], 0, v => [v]
  | [], n + 1, v => null :: setElem [] n v
  | _ :: rest, 0, v => v :: rest
  | x :: rest, n + 1, v => x :: setElem rest n v

/-- sjson `SetBytes` along path segments: intermediate non-containers
are replaced by fresh objects, missing keys are created. -/
def setSegs : Json → List String → Json → Json
  | j, segs, v =>
    match segs with
    | [] => v
    | seg :: rest =>
      match j with
      | obj fields =>
        let child := match lookupField fields seg with
          | some c => c
          | none => null
        obj (setField fields seg (setSegs child rest v))
      | arr elems =>
        match segIndex? seg with
        | some i =>
          let child := match elems.get? i with
            | some c => c
            | none => null
          arr (setElem elems i (setSegs child rest v))
        | none => obj (setField [] seg (setSegs null rest v))
      | _ => obj [(seg, setSegs null rest v)]

/-- Remove the element of a list at an index. -/
def removeElem : List Json → Nat → List Json
  | [], _ => []
  | _ :: rest, 0 => rest
  | x :: rest, n + 1 => x :: removeElem rest n

/-- sjson `DeleteBytes` along path segments; deleting a missing path
leaves the document unchanged. -/
def delSegs : Json → List String → Json
  | j, [] => j
  | obj fields, [seg] => obj (removeField fields seg)
  | arr elems, [seg] =>
    match segIndex? seg with
    | some i => arr (removeElem elems i)
    | none => arr elems
  | obj fields, seg :: rest =>
    match lookupField fields seg with
    | some c => obj (setField fields seg (delSegs c rest))
    | none => obj fields
  | arr elems, seg :: rest =>
    match segIndex? seg with
    | some i =>
      match elems.get? i with
      | some c => arr (setElem elems i (delSegs c rest))
      | none => arr elems
    | none => arr elems
  | j, _ :: _ => j

/-- Character-level splitter for dotted paths (structural, so concrete
paths evaluate inside the kernel). -/
def splitPathAux : List Char → List Char → List String
  | [], acc => [String.mk acc.reverse]
  | c :: rest, acc =>
    if c = '.' then String.mk acc.reverse :: splitPathAux rest []
    else splitPathAux rest (c :: acc)

/-- Split a dotted gjson/sjson path into its segments. -/
def splitPath (path : String) : List String := splitPathAux path.data []

/-- Child of a document at one segment, `null` when absent (the value
`setSegs` recurses into). -/
def childAt (j : Json) (k : String) : Json :=
  match getSeg j k with
  | some c => c
  | none => null

/-- Top-level object keys of a document. -/
def topKeys : Json → List String
  | obj fields => fields.map Prod.fst
  | _ => []

/-- gjson `GetBytes` with a dotted path. -/
def getPath (j : Json) (path : String) : Option Json := getSegs j (splitPath path)

/-- gjson `Exists()` on the result of a dotted-path lookup. -/
def pathExists (j : Json) (path : String) : Bool := (getPath j path).isSome

/-- sjson `SetBytes` with a dotted path. -/
def setPath (j : Json) (path : String) (v : Json) : Json := setSegs j (splitPath path) v

/-- sjson `DeleteBytes` with a dotted path. -/
def delPath (j : Json) (path : String) : Json := delSegs j (splitPath path)

/-- Render the decimal digits of a natural number. -/
def natDigits (n : Nat) : String :=
  Nat.toDigits 10 n |> String.mk

/-- Render an integer in decimal, as Go `strconv.FormatInt` does. -/
def intRender (n : Int) : String :=
  if n < 0 then "-" ++ natDigits n.natAbs else natDigits n.natAbs

/-- Escape a string for JSON output (quotes and backslashes; the
payloads the claims touch contain no control characters). -/
def escapeString (s : String) : String :=
  s.data.foldl (fun acc c =>
    if c = '"' then acc ++ "\\\""
    else if c = '\\' then acc ++ "\\\\"
    else acc.push c) ""

mutual

/-- Serialize a JSON tree to its compact textual form (Go
`json.Marshal` layout, modulo Go's key sorting for maps). -/
def render : Json → String
  | null => "null"
  | bool true => "true"
  | bool false => "false"
  | num n => intRender n
  | str s => "\"" ++ escapeString s ++ "\""
  | arr elems => "[" ++ renderList elems ++ "]"
  | obj fields => "\x7b" ++ renderFields fields ++ "\x7d"

def renderList : List Json → String
  | [] => ""
  | [x] => render x
  | x :: rest => render x ++ "," ++ renderList rest

def renderFields : List (String × Json) → String
  | [] => ""
  | [(k, v)] => "\"" ++ escapeString k ++ "\":" ++ render v
  | (k, v) :: rest => "\"" ++ escapeString k ++ "\":" ++ render v ++ "," ++ renderFields rest

end

/-- gjson `Result.String()` as the claims need it: strings verbatim,
numbers and booleans formatted, `null` as the empty string, containers
as their serialized text. -/
def gjsonString : Json → String
  | null => ""
  | bool true => "true"
  | bool false => "false"
  | num n => intRender n
  | str s => s
  | arr elems => render (arr elems)
  | obj fields => render (obj fields)

/-- Signed decimal parser with Go `strconv.ParseInt` base-10 syntax. -/
def goParseInt? (s : String) : Option Int :=
  let readDigits : List Char → Option Int := fun cs =>
    match cs with
    | [] => none
    | cs => if cs.all (fun c => c.isDigit) then some (Int.ofNat (digitsVal cs)) else none
  match s.data with
  | '-' :: rest => (readDigits rest).map (fun n => -n)
  | '+' :: rest => readDigits rest
  | cs => readDigits cs

/-- gjson `Result.Int()` as used by the executor: integral numbers
verbatim, numeric strings parsed, everything else zero. -/
def gjsonInt : Json → Int
  | num n => n
  | str s =>
    match goParseInt? s with
    | some n => n
    | none => 0
  | bool true => 1
  | _ => 0

/-- gjson `Result.IsArray()`. -/
def isArray : Json → Bool
  | arr _ => true
  | _ => false

end Json

/-- Character class of Go `unicode.IsSpace` restricted to the Latin-1
range that `strings.TrimSpace` fast-paths (space, tab, newline,
vertical tab, form feed, carriage return, NEL, NBSP). -/
def goIsSpace (c : Char) : Bool :=
  c = ' ' || c = '\t' || c = '\n' || c = Char.ofNat 11 || c = Char.ofNat 12 ||
  c = '\r' || c = Char.ofNat 133 || c = Char.ofNat 160

/-- Go `strings.TrimSpace` on a character list. -/
def goTrimSpace (s : List Char) : List Char :=
  ((s.dropWhile goIsSpace).reverse.dropWhile goIsSpace).reverse

/-- Go `strings.TrimSpace` on a string. -/
def goTrimSpaceS (s : String) : String :=
  String.mk (goTrimSpace s.data)

/-- Go `time.Duration` is modelled as `Int` nanoseconds. -/
def nanosecond : Int := 1
def microsecond : Int := 1000
def millisecond : Int := 1000000
def second : Int := 1000000000
def minute : Int := 60 * second

/-- Constant `refreshSkew` of the Antigravity executor (3000 seconds). -/
def refreshSkew : Int := 3000 * second

/-- Delay before an Antigravity retry attempt, from
`antigravityNoCapacityRetryDelay`: linear 250 ms per attempt, capped at
two seconds. -/
def antigravityNoCapacityRetryDelay (attempt : Int) : Int :=
  let attempt := if attempt < 0 then 0 else attempt
  let delay := (attempt + 1) * (250 * millisecond)
  if delay > 2 * second then 2 * second else delay

/-- Per-auth override of the request retry count, the pure fragment of
`Auth.RequestRetryOverride`. -/
structure AuthRetry where
  requestRetryOverride : Option Int
deriving Repr, DecidableEq

/-- Application configuration fragment read by the retry logic. -/
structure RetryConfig where
  requestRetry : Int
deriving Repr, DecidableEq

/-- Total attempt count of the Antigravity outer retry loop, from
`antigravityRetryAttempts`. -/
def antigravityRetryAttempts (auth : Option AuthRetry) (cfg : Option RetryConfig) : Int :=
  let retry : Int := match cfg with
    | some c => c.requestRetry
    | none => 0
  let retry : Int := match auth with
    | some a =>
      match a.requestRetryOverride with
      | some o => o
      | none => retry
    | none => retry
  let retry := if retry < 0 then 0 else retry
  let attempts := retry + 1
  if attempts < 1 then 1 else attempts

/-- Configured retry count before clamping: the override when present,
else the config value, else zero. -/
def configuredRequestRetry (auth : Option AuthRetry) (cfg : Option RetryConfig) : Int :=
  match auth with
  | some a =>
    match a.requestRetryOverride with
    | some o => o
    | none =>
      match cfg with
      | some c => c.requestRetry
      | none => 0
  | none =>
    match cfg with
    | some c => c.requestRetry
    | none => 0

/-- Metadata value of an `Auth` record: the dynamic `map[string]any`
restricted to the value kinds the token helpers inspect. -/
inductive MetaVal where
  | str (s : String)
  | int (n : Int)
  | other
deriving Repr, DecidableEq

/-- Auth metadata, a `map[string]any` modelled as an association list. -/
def Metadata : Type := List (String × MetaVal)

/-- First-match metadata lookup. -/
def metaLookup : Metadata → String → Option MetaVal
  | [], _ => none
  | (k, v) :: rest, key => if k = key then some v else metaLookup rest key

/-- Source `metaStringValue`: string-typed metadata trimmed, anything
else the empty string. -/
def metaStringValue (md : Metadata) (key : String) : String :=
  match metaLookup md key with
  | some (MetaVal.str s) => goTrimSpaceS s
  | _ => ""

/-- Source `int64Value`: numeric metadata verbatim, numeric strings
parsed, anything else missing. -/
def int64Value : Option MetaVal → Option Int
  | some (MetaVal.int n) => some n
  | some (MetaVal.str s) =>
    if goTrimSpaceS s = "" then none
    else Json.goParseInt? (goTrimSpaceS s)
  | _ => none

/-- Decimal value of a list of digit characters. -/
def digitsToNat : List Char → Option Nat
  | [] => some 0
  | cs =>
    if cs.all (fun c => c.isDigit) then
      some (cs.foldl (fun acc c => acc * 10 + (c.toNat - 48)) 0)
    else none

/-- Fixed-width decimal field of an RFC3339 timestamp. -/
def rfcField (cs : List Char) (start len : Nat) : Option Nat :=
  let sub := (cs.drop start).take len
  if sub.length = len && sub.all (fun c => c.isDigit) then digitsToNat sub else none

/-- Days from civil date to the 1970-01-01 epoch (Gregorian calendar,
the standard era-based formula). -/
def daysFromCivil (y : Int) (m d : Nat) : Int :=
  let y : Int := if m ≤ 2 then y - 1 else y
  let era : Int := (if 0 ≤ y then y else y - 399) / 400
  let yoe : Int := y - era * 400
  let mp : Int := (Int.ofNat m + 9) % 12
  let doy : Int := (153 * mp + 2) / 5 + Int.ofNat d - 1
  let doe : Int := yoe * 365 + yoe / 4 - yoe / 100 + doy
  era * 146097 + doe - 719468

/-- Time-zone suffix of an RFC3339 timestamp: `Z` or `±HH:MM`, as an
offset in seconds. -/
def rfcZoneOffset (cs : List Char) : Option Int :=
  match cs with
  | ['Z'] => some 0
  | [sign, h1, h2, ':', m1, m2] =>
    match digitsToNat [h1, h2], digitsToNat [m1, m2] with
    | some h, some m =>
      if [h1, h2, m1, m2].all (fun c => c.isDigit) && h ≤ 23 && m ≤ 59 then
        if sign = '+' then some (Int.ofNat (h * 3600 + m * 60))
        else if sign = '-' then some (-(Int.ofNat (h * 3600 + m * 60)))
        else none
      else none
    | _, _ => none
  | _ => none

/-- Go `time.Parse(time.RFC3339, s)` modelled as epoch nanoseconds:
`YYYY-MM-DDTHH:MM:SS` plus an optional fraction and a zone suffix.
Field ranges are checked; day-in-month overflow is accepted here,
a slight relaxation of Go's validation that no claim exercises. -/
def parseRFC3339 (s : String) : Option Int :=
  let cs := s.data
  if cs.length < 20 then none
  else
    match rfcField cs 0 4, rfcField cs 5 2, rfcField cs 8 2,
          rfcField cs 11 2, rfcField cs 14 2, rfcField cs 17 2 with
    | some y, some mo, some d, some h, some mi, some sec =>
      if cs.get? 4 = some '-' && cs.get? 7 = some '-' && cs.get? 10 = some 'T' &&
         cs.get? 13 = some ':' && cs.get? 16 = some ':' &&
         1 ≤ mo && mo ≤ 12 && 1 ≤ d && d ≤ 31 && h ≤ 23 && mi ≤ 59 && sec ≤ 59 then
        let rest := cs.drop 19
        let rest := match rest with
          | '.' :: tail => tail.dropWhile (fun c => c.isDigit)
          | _ => rest
        match rfcZoneOffset rest with
        | some off =>
          some ((daysFromCivil (Int.ofNat y) mo d * 86400 +
                 Int.ofNat (h * 3600 + mi * 60 + sec) - off) * second)
        | none => none
      else none
    | _, _, _, _, _, _ => none

/-- Epoch nanoseconds of Go's zero `time.Time` (January 1, year 1). -/
def goZeroTime : Int := -62135596800 * second

/-- Source `tokenExpiry`: prefer the RFC3339 `expired` field, fall back
to `timestamp` (ms) plus `expires_in` (s), else the zero time. -/
def tokenExpiry (md : Metadata) : Int :=
  match metaLookup md "expired" with
  | some (MetaVal.str s) =>
    let t := goTrimSpaceS s
    if t ≠ "" then
      match parseRFC3339 t with
      | some e => e
      | none => tokenExpiryFallback md
    else tokenExpiryFallback md
  | _ => tokenExpiryFallback md
where
  tokenExpiryFallback (md : Metadata) : Int :=
    match int64Value (metaLookup md "expires_in"), int64Value (metaLookup md "timestamp") with
    | some expiresIn, some tsMs => tsMs * millisecond + expiresIn * second
    | _, _ => goZeroTime

/-- Outcome of the cached-token decision in
`AntigravityExecutor.ensureAccessToken`: either the cached access token
is returned unchanged or a refresh round-trip is performed. -/
inductive EnsureTokenOutcome where
  | missingAuth
  | cached (token : String)
  | refresh
deriving Repr, DecidableEq

/-- Decision logic of `AntigravityExecutor.ensureAccessToken` (the
network refresh itself is impure and represented by the `refresh`
constructor). `now` is epoch nanoseconds. -/
def ensureAccessToken (auth : Option Metadata) (now : Int) : EnsureTokenOutcome :=
  match auth with
  | none => EnsureTokenOutcome.missingAuth
  | some md =>
    let accessToken := metaStringValue md "access_token"
    let expiry := tokenExpiry md
    if accessToken ≠ "" ∧ expiry > now + refreshSkew then
      EnsureTokenOutcome.cached accessToken
    else
      EnsureTokenOutcome.refresh

/-- Refresh lead returned by `AntigravityAuthenticator.RefreshLead`,
the manager-level hint (five minutes). -/
def antigravityAuthenticatorRefreshLead : Int := 5 * minute

/-- Trailing-star skip after the main loop of `matchModelPattern`:
`for pi < len(pattern) && pattern[pi] == '*' { pi++ }; return pi == len`. -/
def trailingStarsOnly (p : List Char) (pi : Nat) : Bool :=
  (p.drop pi).all (fun c => c = '*')

/-- Main loop of the source's iterative glob matcher, with state
`(pi, si, starIdx, matchIdx)` exactly as in the Go code.  The loop is
driven by explicit fuel (each iteration consumes one unit); the
top-level entry supplies fuel exceeding the loop's worst-case step
count, so the `fuel = 0` branch is unreachable from `matchModelPattern`. -/
def matchLoopF (p m : List Char) : Nat → Nat → Nat → Option Nat → Nat → Bool
  | fuel, pi, si, star, mi =>
    if si < m.length then
      match fuel with
      | 0 => false
      | fuel' + 1 =>
        if pi < p.length ∧ p.get? pi = m.get? si then
          matchLoopF p m fuel' (pi + 1) (si + 1) star mi
        else if pi < p.length ∧ p.get? pi = some '*' then
          matchLoopF p m fuel' (pi + 1) si (some pi) si
        else
          match star with
          | some s => matchLoopF p m fuel' (s + 1) (mi + 1) (some s) (mi + 1)
          | none => false
    else
      trailingStarsOnly p pi

/-- Fuel budget for `matchLoopF`, an upper bound on the loop's step
count from the initial state. -/
def matchFuel (p m : List Char) : Nat :=
  (m.length + 1) * (p.length + m.length + 2)

/-- Source `matchModelPattern`: trim both strings, handle the empty
pattern and the bare `"*"` pattern, then run the iterative matcher. -/
def matchModelPattern (pattern model : String) : Bool :=
  let p := goTrimSpace pattern.data
  let m := goTrimSpace model.data
  if p = [] then false
  else if p = ['*'] then true
  else matchLoopF p m (matchFuel p m) 0 0 none 0

/-- Recursive glob matcher following the specification's words: `*`
matches zero or more characters, every other character matches itself
literally and case-sensitively. -/
def globMatch : List Char → List Char → Bool
  | [], m => m.isEmpty
  | '*' :: ps, [] => globMatch ps []
  | '*' :: ps, x :: ms => globMatch ps (x :: ms) || globMatch ('*' :: ps) ms
  | _ :: _, [] => false
  | c :: ps, x :: ms => (c = x) && globMatch ps ms

/-- Declarative glob semantics from the specification: a pattern
matches a model when literals match one-for-one and each `*` absorbs
zero or more model characters. -/
inductive GlobSpec : List Char → List Char → Prop where
  | nil : GlobSpec [] []
  | lit {c : Char} {p m : List Char} : c ≠ '*' → GlobSpec p m → GlobSpec (c :: p) (c :: m)
  | starZero {p m : List Char} : GlobSpec p m → GlobSpec ('*' :: p) m
  | starMore {p m : List Char} {x : Char} : GlobSpec ('*' :: p) m → GlobSpec ('*' :: p) (x :: m)

/-- Truncation to a 32-bit word. -/
def w32 (x : Nat) : Nat := x % 4294967296

/-- Right rotation of a 32-bit word. -/
def rotr32 (n x : Nat) : Nat := w32 ((x >>> n) ||| (x <<< (32 - n)))

/-- SHA-256 round constants (FIPS 180-4, written in decimal). -/
def sha256K : List Nat :=
  [1116352408, 1899447441, 3049323471, 3921009573, 961987163, 1508970993,
   2453635748, 2870763221, 3624381080, 310598401, 607225278, 1426881987,
   1925078388, 2162078206, 2614888103, 3248222580, 3835390401, 4022224774,
   264347078, 604807628, 770255983, 1249150122, 1555081692, 1996064986,
   2554220882, 2821834349, 2952996808, 3210313671, 3336571891, 3584528711,
   113926993, 338241895, 666307205, 773529912, 1294757372, 1396182291,
   1695183700, 1986661051, 2177026350, 2456956037, 2730485921, 2820302411,
   3259730800, 3345764771, 3516065817, 3600352804, 4094571909, 275423344,
   430227734, 506948616, 659060556, 883997877, 958139571, 1322822218,
   1537002063, 1747873779, 1955562222, 2024104815, 2227730452, 2361852424,
   2428436474, 2756734187, 3204031479, 3329325298]

/-- SHA-256 initial hash state (decimal). -/
def sha256H0 : List Nat :=
  [1779033703, 3144134277, 1013904242, 2773480762,
   1359893119, 2600822924, 528734635, 1541459225]

/-- Big-endian eight-byte encoding of a 64-bit value. -/
def be64Bytes (n : Nat) : List Nat :=
  [(n >>> 56) % 256, (n >>> 48) % 256, (n >>> 40) % 256, (n >>> 32) % 256,
   (n >>> 24) % 256, (n >>> 16) % 256, (n >>> 8) % 256, n % 256]

/-- SHA-256 message padding: `0x80`, zeros to 56 mod 64, then the
big-endian bit length. -/
def sha256Pad (msg : List Nat) : List Nat :=
  let len := msg.length
  let k := (119 - (len % 64)) % 64
  msg ++ [0x80] ++ List.replicate k 0 ++ be64Bytes (len * 8)

/-- Big-endian 32-bit word of four bytes. -/
def beWord (a b c d : Nat) : Nat := ((a * 256 + b) * 256 + c) * 256 + d

/-- Group a byte list into big-endian 32-bit words. -/
def chunkWords : List Nat → List Nat
  | a :: b :: c :: d :: rest => beWord a b c d :: chunkWords rest
  | _ => []

/-- SHA-256 message-schedule extension of 16 words to 64. -/
def sha256Extend (ws : List Nat) : List Nat :=
  (List.range 48).foldl
    (fun acc i =>
      let x := acc.getD (i + 1) 0
      let y := acc.getD (i + 14) 0
      let s0 := rotr32 7 x ^^^ rotr32 18 x ^^^ (x >>> 3)
      let s1 := rotr32 17 y ^^^ rotr32 19 y ^^^ (y >>> 10)
      acc ++ [w32 (acc.getD i 0 + s0 + acc.getD (i + 9) 0 + s1)])
    ws

/-- SHA-256 compression of one 64-word schedule into the hash state. -/
def sha256Compress (h ws : List Nat) : List Nat :=
  let st0 := (h.getD 0 0, h.getD 1 0, h.getD 2 0, h.getD 3 0,
              h.getD 4 0, h.getD 5 0, h.getD 6 0, h.getD 7 0)
  let stN := (List.range 64).foldl
    (fun st i =>
      let (a, b, c, d, e, f, g, hh) := st
      let s1 := rotr32 6 e ^^^ rotr32 11 e ^^^ rotr32 25 e
      let ch := (e &&& f) ^^^ ((e ^^^ 4294967295) &&& g)
      let t1 := w32 (hh + s1 + ch + sha256K.getD i 0 + ws.getD i 0)
      let s0 := rotr32 2 a ^^^ rotr32 13 a ^^^ rotr32 22 a
      let maj := (a &&& b) ^^^ (a &&& c) ^^^ (b &&& c)
      let t2 := w32 (s0 + maj)
      (w32 (t1 + t2), a, b, c, w32 (d + t1), e, f, g))
    st0
  match stN with
  | (a, b, c, d, e, f, g, hh) =>
    [w32 (h.getD 0 0 + a), w32 (h.getD 1 0 + b), w32 (h.getD 2 0 + c), w32 (h.getD 3 0 + d),
     w32 (h.getD 4 0 + e), w32 (h.getD 5 0 + f), w32 (h.getD 6 0 + g), w32 (h.getD 7 0 + hh)]

/-- Fold SHA-256 compression over 64-byte chunks. -/
def sha256Chunks : List Nat → List Nat → List Nat
  | h, [] => h
  | h, b :: rest =>
    sha256Chunks (sha256Compress h (sha256Extend (chunkWords ((b :: rest).take 64))))
      ((b :: rest).drop 64)
termination_by _ bytes => bytes.length
decreasing_by simp [List.length_drop]; omega

/-- SHA-256 digest (32 bytes) of a byte message. -/
def sha256 (msg : List Nat) : List Nat :=
  (sha256Chunks sha256H0 (sha256Pad msg)).foldr
    (fun w acc => (w >>> 24) % 256 :: (w >>> 16) % 256 :: (w >>> 8) % 256 :: w % 256 :: acc) []

/-- UTF-8 encoding of one character, as Go's `[]byte(string)` yields. -/
def utf8Bytes (c : Char) : List Nat :=
  let n := c.toNat
  if n < 128 then [n]
  else if n < 2048 then [192 ||| (n >>> 6), 128 ||| (n &&& 63)]
  else if n < 65536 then
    [224 ||| (n >>> 12), 128 ||| ((n >>> 6) &&& 63), 128 ||| (n &&& 63)]
  else
    [240 ||| (n >>> 18), 128 ||| ((n >>> 12) &&& 63), 128 ||| ((n >>> 6) &&& 63), 128 ||| (n &&& 63)]

/-- UTF-8 bytes of a string. -/
def strBytes (s : String) : List Nat :=
  (s.data.map utf8Bytes).foldr (fun a b => a ++ b) []

/-- Big-endian unsigned 64-bit value of a byte list. -/
def beUint64 (bytes : List Nat) : Nat :=
  bytes.foldl (fun acc b => acc * 256 + b) 0

/-- Session identifier derived from the first user text, from
`generateStableSessionID`: the top 8 digest bytes as a big-endian
integer, sign bit cleared by the `& 0x7FFFFFFFFFFFFFFF` mask, rendered
in decimal behind a dash. -/
def stableSessionFromText (text : String) : String :=
  let n := beUint64 ((sha256 (strBytes text)).take 8) % (2 ^ 63)
  "-" ++ Json.natDigits n

/-- Session identifier outcome: either deterministically derived from
the payload or drawn from the process random source (the impure
`generateSessionID`). -/
inductive SessionID where
  | stable (id : String)
  | random
deriving Repr, DecidableEq

/-- gjson `Result.String()` through an optional lookup (missing results
render as the empty string). -/
def optString : Option Json → String
  | some j => Json.gjsonString j
  | none => ""

/-- Scan of `request.contents` in `generateStableSessionID`: the first
`user` entry whose `parts.0.text` is non-empty ends the loop. -/
def sessionLoop : List Json → Option String
  | [] => none
  | content :: rest =>
    if optString (Json.getPath content "role") = "user" then
      let text := optString (Json.getPath content "parts.0.text")
      if text ≠ "" then some text else sessionLoop rest
    else sessionLoop rest

/-- Source `generateStableSessionID`: hash the first non-empty user
text into a stable identifier, or fall back to the random source. -/
def generateStableSessionID (payload : Json) : SessionID :=
  match Json.getPath payload "request.contents" with
  | some contents =>
    if contents.isArray then
      match contents with
      | Json.arr elems =>
        match sessionLoop elems with
        | some text => SessionID.stable (stableSessionFromText text)
        | none => SessionID.random
      | _ => SessionID.random
    else SessionID.random
  | none => SessionID.random

/-- First non-empty user text of a payload, the quantity the session
identifier is a function of. -/
def firstUserText (payload : Json) : Option String :=
  match Json.getPath payload "request.contents" with
  | some (Json.arr elems) => sessionLoop elems
  | _ => none

/-- ASCII lower-casing of one character (the protocol and level names
these helpers compare are ASCII, so Go's Unicode fold reduces to this). -/
def goToLower (c : Char) : Char :=
  if 'A' ≤ c ∧ c ≤ 'Z' then Char.ofNat (c.toNat + 32) else c

/-- Go `strings.ToLower` on ASCII content. -/
def goToLowerS (s : String) : String := String.mk (s.data.map goToLower)

/-- Go `strings.Join` with a separator. -/
def goJoin : List String → String → String
  | [], _ => ""
  | [x], _ => x
  | x :: rest, sep => x ++ sep ++ goJoin rest sep

/-- gjson `Result.Int()` through an optional lookup (missing results
read as zero). -/
def optInt : Option Json → Int
  | some j => Json.gjsonInt j
  | none => 0

/-- Per-model thinking capability record. Modelled from the spec:
the registry entry read through `registry.GetModelInfo` whose source is
not under `src/` — the completion-token cap and the minimum thinking
budget. -/
structure ModelInfo where
  maxCompletionTokens : Int
  thinkingMin : Option Int
deriving Repr, DecidableEq

/-- Model-capability lookups. Modelled from the spec: the
`internal/util` registry helpers of §4.2.3 (not under `src/`): thinking
support, level-based classification, known levels, level normalization
(succeeding exactly on known levels), numeric budget normalization to
the model's valid range, and the registry record. -/
structure ThinkingRegistry where
  modelSupportsThinking : String → Bool
  modelUsesThinkingLevels : String → Bool
  getModelThinkingLevels : String → List String
  normalizeReasoningEffortLevel : String → String → Option String
  normalizeThinkingBudget : String → Int → Int
  getModelInfo : String → Option ModelInfo

/-- Error value carrying an HTTP status, from the executor's
`statusErr`. -/
structure StatusErr where
  code : Nat
  msg : String
deriving Repr, DecidableEq

/-- The `checkField` closure of `ValidateThinkingConfig`: a present
field whose stringified value does not normalize to a known level
yields the 400 `statusErr`. -/
def validateCheckField (reg : ThinkingRegistry) (model : String) (p : Json)
    (path : String) : Option StatusErr :=
  match Json.getPath p path with
  | some effort =>
    match reg.normalizeReasoningEffortLevel model (Json.gjsonString effort) with
    | some _ => none
    | none => some
        { code := 400,
          msg := "unsupported reasoning effort level \"" ++ Json.gjsonString effort ++
            "\" for model " ++ model ++ " (supported: " ++
            goJoin (reg.getModelThinkingLevels model) ", " ++ ")" }
  | none => none

/-- Source `ValidateThinkingConfig`: on level-based thinking models,
reject a `reasoning_effort` or `reasoning.effort` field that does not
normalize to a known level with HTTP 400. An empty payload is `none`. -/
def ValidateThinkingConfig (reg : ThinkingRegistry) (payload : Option Json)
    (model : String) : Option StatusErr :=
  match payload with
  | none => none
  | some p =>
    if model = "" then none
    else if !reg.modelSupportsThinking model || !reg.modelUsesThinkingLevels model then none
    else
      match validateCheckField reg model p "reasoning_effort" with
      | some e => some e
      | none => validateCheckField reg model p "reasoning.effort"

/-- The `max_tokens` ensure block of `normalizeCopilotClaudeThinking`:
when the field is absent, fall back to the registry's
`maxCompletionTokens` when positive. -/
def copilotEnsureMaxTokens (reg : ThinkingRegistry) (model : String) (body : Json) : Json :=
  if (Json.getPath body "max_tokens").isSome then body
  else
    match reg.getModelInfo model with
    | some info =>
      if info.maxCompletionTokens > 0 then
        Json.setPath body "max_tokens" (Json.num info.maxCompletionTokens)
      else body
    | none => body

/-- Source `minThinkingBudget`: the registry's minimum thinking budget,
zero when the model or its thinking record is missing. -/
def minThinkingBudget (reg : ThinkingRegistry) (model : String) : Int :=
  match reg.getModelInfo model with
  | some info =>
    match info.thinkingMin with
    | some mn => mn
    | none => 0
  | none => 0

/-- The budget computation of `normalizeCopilotClaudeThinking`: a
non-positive request budget falls back to the model default, the result
is normalized to the model range and clamped strictly below `maxVal`. -/
def copilotClampedBudget (reg : ThinkingRegistry) (model : String)
    (maxVal budgetVal0 : Int) : Int :=
  let budgetVal := if budgetVal0 ≤ 0 then reg.normalizeThinkingBudget model (-1) else budgetVal0
  let normalized := reg.normalizeThinkingBudget model budgetVal
  if normalized ≥ maxVal then maxVal - 1 else normalized

/-- Clamp-or-drop phase of `normalizeCopilotClaudeThinking`, acting on
the body with `max_tokens` already ensured. -/
def normalizeCopilotThinkingEnsured (reg : ThinkingRegistry) (model : String)
    (b1 : Json) : Json :=
  if optInt (Json.getPath b1 "max_tokens") ≤ 0 then b1
  else
    match Json.getPath b1 "thinking" with
    | none => b1
    | some thinking =>
      if goToLowerS (goTrimSpaceS (optString (Json.getPath thinking "type"))) = "disabled" then
        b1
      else
        if minThinkingBudget reg model > 0 ∧
            copilotClampedBudget reg model (optInt (Json.getPath b1 "max_tokens"))
              (optInt (Json.getPath thinking "budget_tokens")) > 0 ∧
            copilotClampedBudget reg model (optInt (Json.getPath b1 "max_tokens"))
              (optInt (Json.getPath thinking "budget_tokens")) < minThinkingBudget reg model then
          Json.delPath b1 "thinking"
        else
          Json.setPath (Json.setPath b1 "thinking.type" (Json.str "enabled"))
            "thinking.budget_tokens"
            (Json.num (copilotClampedBudget reg model (optInt (Json.getPath b1 "max_tokens"))
              (optInt (Json.getPath thinking "budget_tokens"))))

/-- Source `normalizeCopilotClaudeThinking` for Copilot Claude bodies:
ensure `max_tokens`, then clamp or drop the `thinking` block. -/
def normalizeCopilotClaudeThinking (reg : ThinkingRegistry) (model : String)
    (body : Json) : Json :=
  if !reg.modelSupportsThinking model then body
  else normalizeCopilotThinkingEnsured reg model (copilotEnsureMaxTokens reg model body)

/-- Concrete level-based registry used to instantiate the validation
theorem: one model, three known levels. -/
def levelRegistryExample : ThinkingRegistry where
  modelSupportsThinking := fun m => m == "gpt-5"
  modelUsesThinkingLevels := fun m => m == "gpt-5"
  getModelThinkingLevels := fun _ => ["low", "medium", "high"]
  normalizeReasoningEffortLevel := fun _ lvl =>
    if lvl = "low" || lvl = "medium" || lvl = "high" then some lvl else none
  normalizeThinkingBudget := fun _ b => b
  getModelInfo := fun _ => none

/-- Concrete budget-based registry used to instantiate the Copilot
Claude thinking normalization theorem. -/
def budgetRegistryExample : ThinkingRegistry where
  modelSupportsThinking := fun m => m == "claude-sonnet-4-5"
  modelUsesThinkingLevels := fun _ => false
  getModelThinkingLevels := fun _ => []
  normalizeReasoningEffortLevel := fun _ _ => none
  normalizeThinkingBudget := fun _ b => if b ≤ 0 then 8192 else (if b < 1024 then 1024 else b)
  getModelInfo := fun m =>
    if m == "claude-sonnet-4-5" then some { maxCompletionTokens := 64000, thinkingMin := some 1024 }
    else none

/-- Concrete Copilot Claude body used to instantiate the thinking
normalization theorem. -/
def copilotBodyExample : Json :=
  Json.obj [("max_tokens", Json.num 2000),
    ("thinking", Json.obj [("type", Json.str "auto"), ("budget_tokens", Json.num 5000)])]

/-- Copilot Claude body with `max_tokens = 1`, which drives the
clamped thinking budget down to 0. -/
def copilotTinyBodyExample : Json :=
  Json.obj [("max_tokens", Json.num 1),
    ("thinking", Json.obj [("type", Json.str "auto"), ("budget_tokens", Json.num 5000)])]

/-- Whitespace of the JSON grammar (Go `encoding/json`). -/
def jsonWs (c : Char) : Bool :=
  c = ' ' || c = '\t' || c = '\n' || c = '\r'

/-- Hexadecimal digit test for `\u` escapes. -/
def isHexDigit (c : Char) : Bool :=
  c.isDigit || ('a' ≤ c && c ≤ 'f') || ('A' ≤ c && c ≤ 'F')

/-- String-body scanner of the JSON grammar: consume characters after
the opening quote up to the closing quote, validating escapes; yields
the decoded content and the rest. -/
def scanJsonString : Nat → List Char → Option (List Char × List Char)
  | 0, _ => none
  | _, [] => none
  | fuel + 1, c :: rest =>
    if c = '"' then some ([], rest)
    else if c = '\\' then
      match rest with
      | [] => none
      | e :: rest' =>
        if e = '"' || e = '\\' || e = '/' || e = 'b' || e = 'f' || e = 'n' ||
            e = 'r' || e = 't' then
          match scanJsonString fuel rest' with
          | some (body, rem) => some (e :: body, rem)
          | none => none
        else if e = 'u' then
          match rest' with
          | h1 :: h2 :: h3 :: h4 :: rest'' =>
            if isHexDigit h1 && isHexDigit h2 && isHexDigit h3 && isHexDigit h4 then
              match scanJsonString fuel rest'' with
              | some (body, rem) => some (body, rem)
              | none => none
            else none
          | _ => none
        else none
    else
      match scanJsonString fuel rest with
      | some (body, rem) => some (c :: body, rem)
      | none => none

mutual

/-- Recursive-descent JSON value parser over characters (the shallow
model of Go `encoding/json` syntax; numbers are truncated to their
integral part, which no verified claim reads back). -/
def parseJsonValue : Nat → List Char → Option (Json × List Char)
  | 0, _ => none
  | fuel + 1, cs =>
    match cs.dropWhile (fun c => jsonWs c) with
    | [] => none
    | c :: rest =>
      if c = 'n' then
        match c :: rest with
        | 'n' :: 'u' :: 'l' :: 'l' :: rem => some (Json.null, rem)
        | _ => none
      else if c = 't' then
        match c :: rest with
        | 't' :: 'r' :: 'u' :: 'e' :: rem => some (Json.bool true, rem)
        | _ => none
      else if c = 'f' then
        match c :: rest with
        | 'f' :: 'a' :: 'l' :: 's' :: 'e' :: rem => some (Json.bool false, rem)
        | _ => none
      else if c = '"' then
        match scanJsonString (fuel + 1) rest with
        | some (body, rem) => some (Json.str (String.mk body), rem)
        | none => none
      else if c = '[' then
        match (rest.dropWhile (fun c => jsonWs c)) with
        | ']' :: rem => some (Json.arr [], rem)
        | _ =>
          match parseJsonArrayItems fuel rest with
          | some (elems, rem) => some (Json.arr elems, rem)
          | none => none
      else if c = Char.ofNat 123 then
        match (rest.dropWhile (fun c => jsonWs c)) with
        | close :: rem =>
          if close = Char.ofNat 125 then some (Json.obj [], rem)
          else
            match parseJsonObjectItems fuel rest with
            | some (fields, rem') => some (Json.obj fields, rem')
            | none => none
        | [] => none
      else if c = '-' || c.isDigit then
        let num := if c = '-' then rest else c :: rest
        let digits := num.takeWhile (fun d => d.isDigit)
        let rem0 := num.dropWhile (fun d => d.isDigit)
        if digits = [] then none
        else
          let mag : Int := Int.ofNat (Json.digitsVal digits)
          let intPart : Int := if c = '-' then -mag else mag
          match rem0 with
          | '.' :: frac =>
            let fdigits := frac.takeWhile (fun d => d.isDigit)
            if fdigits = [] then none
            else some (Json.num intPart, frac.dropWhile (fun d => d.isDigit))
          | _ => some (Json.num intPart, rem0)
      else none

/-- Comma-separated array items after `[`. -/
def parseJsonArrayItems : Nat → List Char → Option (List Json × List Char)
  | 0, _ => none
  | fuel + 1, cs =>
    match parseJsonValue fuel cs with
    | none => none
    | some (v, rest) =>
      match rest.dropWhile (fun c => jsonWs c) with
      | ',' :: rest' =>
        match parseJsonArrayItems fuel rest' with
        | some (elems, rem) => some (v :: elems, rem)
        | none => none
      | ']' :: rem => some ([v], rem)
      | _ => none

/-- Comma-separated object members after the opening brace. -/
def parseJsonObjectItems : Nat → List Char → Option (List (String × Json) × List Char)
  | 0, _ => none
  | fuel + 1, cs =>
    match cs.dropWhile (fun c => jsonWs c) with
    | '"' :: rest =>
      match scanJsonString (fuel + 1) rest with
      | none => none
      | some (key, rest') =>
        match rest'.dropWhile (fun c => jsonWs c) with
        | ':' :: rest'' =>
          match parseJsonValue fuel rest'' with
          | none => none
          | some (v, rest3) =>
            match rest3.dropWhile (fun c => jsonWs c) with
            | ',' :: rest4 =>
              match parseJsonObjectItems fuel rest4 with
              | some (fields, rem) => some ((String.mk key, v) :: fields, rem)
              | none => none
            | close :: rem =>
              if close = Char.ofNat 125 then some ([(String.mk key, v)], rem)
              else none
            | [] => none
        | _ => none
    | _ => none

end

/-- Parse a complete JSON document (a single value with only trailing
whitespace), the model of Go `json.Unmarshal`'s syntax. -/
def parseJson (s : String) : Option Json :=
  match parseJsonValue (s.data.length + 1) s.data with
  | some (v, rest) =>
    if rest.dropWhile (fun c => jsonWs c) = [] then some v else none
  | none => none

/-- Go `json.Valid` as the repair pipeline consults it. -/
def jsonValid (s : String) : Bool := (parseJson s).isSome

/-- `isIdentifierStart` of the repair helpers: letters, underscore, dollar. -/
def isIdentifierStart (c : Char) : Bool :=
  ('a' ≤ c && c ≤ 'z') || ('A' ≤ c && c ≤ 'Z') || c = '_' || c = '$'

/-- `isIdentifierChar`: identifier-start characters or decimal digits. -/
def isIdentifierChar (c : Char) : Bool :=
  isIdentifierStart c || ('0' ≤ c && c ≤ '9')

/-- Fix 1 of `attemptJSONRepair`: replace single quotes outside strings
with double quotes. `prev` carries the previous input character, matching
the Go loop's read of `fixed[i-1]` from the unmodified input. Inputs are
ASCII here, so bytes and characters coincide. -/
def fixQuotesLoop : List Char → Bool → Option Char → List Char
  | [], _, _ => []
  | c :: rest, inString, prev =>
    if c = '"' && (match prev with | none => true | some p => decide (p ≠ '\\')) then
      c :: fixQuotesLoop rest (!inString) (some c)
    else if c = Char.ofNat 39 && !inString then
      '"' :: fixQuotesLoop rest inString (some c)
    else
      c :: fixQuotesLoop rest inString (some c)

/-- The skip-strings inner loop shared by `fixUnquotedKeys` and
`removeTrailingCommas`, entered after the opening quote was written:
copies up to and including the closing quote, keeping escape pairs
together, and returns the copied body with the remaining input. -/
def copyJsonString : List Char → List Char × List Char
  | [] => ([], [])
  | '"' :: rest => (['"'], rest)
  | '\\' :: [] => (['\\'], [])
  | '\\' :: d :: rest =>
    let p := copyJsonString rest
    ('\\' :: d :: p.1, p.2)
  | c :: rest =>
    let p := copyJsonString rest
    (c :: p.1, p.2)

/-- Main loop of `fixUnquotedKeys`: after `\x7b` or `,`, an identifier
followed (across whitespace) by `:` is wrapped in double quotes. The
fuel only bounds iteration count (each step consumes input, so
`length + 1` always suffices). -/
def fixKeysLoop : Nat → List Char → List Char
  | 0, _ => []
  | _, [] => []
  | fuel + 1, c :: rest =>
    if c = '"' then
      let p := copyJsonString rest
      '"' :: (p.1 ++ fixKeysLoop fuel p.2)
    else if c = Char.ofNat 123 || c = ',' then
      let ws1 := rest.takeWhile (fun d => jsonWs d)
      let rest1 := rest.dropWhile (fun d => jsonWs d)
      match rest1 with
      | [] => c :: ws1
      | d :: _ =>
        if isIdentifierStart d then
          let key := rest1.takeWhile (fun e => isIdentifierChar e)
          let rest2 := rest1.dropWhile (fun e => isIdentifierChar e)
          let ws2 := rest2.takeWhile (fun e => jsonWs e)
          let rest3 := rest2.dropWhile (fun e => jsonWs e)
          match rest3 with
          | ':' :: _ =>
            c :: (ws1 ++ '"' :: (key ++ '"' :: (ws2 ++ fixKeysLoop fuel rest3)))
          | _ =>
            c :: (ws1 ++ key ++ ws2 ++ fixKeysLoop fuel rest3)
        else
          c :: (ws1 ++ fixKeysLoop fuel rest1)
    else
      c :: fixKeysLoop fuel rest

/-- `fixUnquotedKeys` adds double quotes around unquoted JSON keys. -/
def fixUnquotedKeys (s : String) : String :=
  String.mk (fixKeysLoop (s.data.length + 1) s.data)

/-- Main loop of `removeTrailingCommas`: a comma whose next
non-whitespace character is `\x7d` or `]` is dropped; strings are
copied verbatim. -/
def trailingCommasLoop : Nat → List Char → List Char
  | 0, _ => []
  | _, [] => []
  | fuel + 1, c :: rest =>
    if c = '"' then
      let p := copyJsonString rest
      '"' :: (p.1 ++ trailingCommasLoop fuel p.2)
    else if c = ',' then
      match rest.dropWhile (fun d => jsonWs d) with
      | [] => ',' :: trailingCommasLoop fuel rest
      | d :: _ =>
        if d = Char.ofNat 125 || d = ']' then
          trailingCommasLoop fuel rest
        else
          ',' :: trailingCommasLoop fuel rest
    else
      c :: trailingCommasLoop fuel rest

/-- `removeTrailingCommas` removes trailing commas before `\x7d` or `]`. -/
def removeTrailingCommas (s : String) : String :=
  String.mk (trailingCommasLoop (s.data.length + 1) s.data)

/-- The composed fixes of `attemptJSONRepair`: single quotes (applied
only when a single quote, character 39, occurs), unquoted keys, then
trailing commas. -/
def repairFixed (raw : String) : String :=
  removeTrailingCommas (fixUnquotedKeys
    (if raw.data.contains (Char.ofNat 39) then
      String.mk (fixQuotesLoop raw.data false none)
    else raw))

/-- `attemptJSONRepair`: trim; empty fails; already-valid input is
returned as-is; otherwise the three fixes run and the result is
returned only if it now validates. The Go `(string, bool)` pair is
modelled as `Option String`. -/
def attemptJSONRepair (raw0 : String) : Option String :=
  let raw := goTrimSpaceS raw0
  if raw = "" then none
  else if jsonValid raw then some raw
  else if jsonValid (repairFixed raw) then some (repairFixed raw) else none

/-- The payload of the synthetic SSE chunk built by
`createRepairedToolCallChunk`: the function name read from the
repaired object, the raw repaired JSON as the arguments string, and
the model. The wall-clock ids and fixed framing fields of the chunk
are impure or constant and are not modelled. -/
structure RepairedToolCall where
  name : Option Json
  arguments : String
  model : String

/-- `createRepairedToolCallChunk`: unmarshal the repaired JSON into a
map (failing unless the document is an object) and build the synthetic
tool-call chunk from `parsed["name"]` and the raw JSON text. -/
def createRepairedToolCallChunk (repairedJSON : String) (model : String) :
    Option RepairedToolCall :=
  match parseJson repairedJSON with
  | some (Json.obj fields) =>
    some ⟨Json.lookupField fields "name", repairedJSON, model⟩
  | _ => none

/-- The spec's malformed tool-call body fixture. -/
def malformedToolCallFixture : String :=
  "\x7bname: 'search', args: \x7bq: 'x',\x7d\x7d"

/-- What the repair pipeline actually produces on the fixture
(interior whitespace of the input is preserved). -/
def repairedToolCallFixture : String :=
  "\x7b\"name\": \"search\", \"args\": \x7b\"q\": \"x\"\x7d\x7d"

/-- The compact string the spec claims as the repair output. -/
def claimedRepairFixture : String :=
  "\x7b\"name\":\"search\",\"args\":\x7b\"q\":\"x\"\x7d\x7d"

/-- The JSON tree denoted by both the actual and the claimed repair
output. -/
def repairFixtureTree : Json :=
  Json.obj [("name", Json.str "search"), ("args", Json.obj [("q", Json.str "x")])]

/-- Step-count bound of the matcher loop at a given state, used to
discharge the fuel of `matchLoopF`. -/
def loopMeasure (p m : List Char) (pi si mi : Nat) : Nat :=
  (m.length - mi) * (p.length + m.length + 2) + (m.length - si) + (p.length - pi)

/-- Reachability invariant of the matcher loop: indices stay in range,
and when a star is recorded the pattern after it and the model after
the star's candidate start share the literal block consumed so far. -/
def LoopInv (p m : List Char) (pi si : Nat) (star : Option Nat) (mi : Nat) : Prop :=
  pi ≤ p.length ∧ si ≤ m.length ∧ mi ≤ si ∧
  (match star with
   | none => True
   | some s => s < p.length ∧ p.get? s = some '*' ∧
       ∃ B, p.drop (s + 1) = B ++ p.drop pi ∧ m.drop mi = B ++ m.drop si)

/-- Intended value of the matcher loop at a state: with no recorded
star it decides the residual glob problem; with a star at `s` it
decides whether the star can absorb up to some point at or past the
candidate start `mi`. -/
def LoopSpec (p m : List Char) (pi si : Nat) (star : Option Nat) (mi : Nat) : Prop :=
  match star with
  | none => globMatch (p.drop pi) (m.drop si) = true
  | some s => ∃ j, mi ≤ j ∧ globMatch (p.drop (s + 1)) (m.drop j) = true

/-! Payload-rule application (`applyPayloadConfigWithRoot` and its
helpers from `thinking_providers.go`). Payloads travel as `Json` trees
rather than byte slices; `gjson.GetBytes`/`sjson.SetBytes`/
`sjson.DeleteBytes` are the `Json.getPath`/`setPath`/`delPath`
operations already embedded. For the raw rule classes a parameter
value is `Option Json`: `none` models a value `jsonutil.RawValue`
rejects (a Go `nil`), `some v` raw bytes that denote `v`. Go iterates
a rule's `Params` map in unspecified order; the model fixes the list
order, and the per-path properties proved below do not depend on it. -/

/-- `config.PayloadModelRule`: a model name pattern with an optional
protocol restriction. -/
structure PayloadModelRule where
  name : String
  protocol : String

/-- A `default`/`override` rule: matchers plus JSON-typed params. -/
structure PayloadRule where
  models : List PayloadModelRule
  params : List (String × Json)

/-- A `default-raw`/`override-raw` rule: matchers plus raw params. -/
structure PayloadRawRule where
  models : List PayloadModelRule
  params : List (String × Option Json)

/-- A `filter` rule: matchers plus the paths to delete. -/
structure PayloadFilterRule where
  models : List PayloadModelRule
  params : List String

/-- `config.Config.Payload`: the five payload rule classes. -/
structure PayloadConfig where
  default : List PayloadRule
  defaultRaw : List PayloadRawRule
  override : List PayloadRule
  overrideRaw : List PayloadRawRule
  filter : List PayloadFilterRule

/-- `strings.EqualFold` restricted to ASCII case folding. -/
def goEqualFold (a b : String) : Bool :=
  goToLowerS a = goToLowerS b

/-- One entry of `payloadModelRulesMatch`'s inner loop: skip blank
names, skip protocol mismatches (case-insensitive, only when both
sides are non-empty), else glob-match the name against the model. -/
def payloadModelRuleMatches (protocol model : String) (entry : PayloadModelRule) : Bool :=
  let name := goTrimSpaceS entry.name
  if name = "" then false
  else
    let ep := goTrimSpaceS entry.protocol
    if ep ≠ "" && protocol ≠ "" && !goEqualFold ep protocol then false
    else matchModelPattern name model

/-- `payloadModelRulesMatch`: some candidate model matches some rule
entry. -/
def payloadModelRulesMatch (rules : List PayloadModelRule) (protocol : String)
    (models : List String) : Bool :=
  if rules.isEmpty || models.isEmpty then false
  else models.any (fun m => rules.any (fun e => payloadModelRuleMatches protocol m e))

/-- Modelled from the spec: result of `thinking.ParseSuffix` (the
`internal/thinking` package is not part of src/), carrying the base
model name and whether a thinking suffix was present. The C2 theorem
holds for every such function. -/
structure ParsedSuffix where
  modelName : String
  hasSuffix : Bool

/-- `payloadModelCandidates`: the deduplicated (case-insensitive)
candidate list built from the resolved model, the requested model's
base name, and — when a suffix was present — the requested model
itself. The state pairs the candidates with their lowercase keys. -/
def payloadModelCandidates (parseSuffix : String → ParsedSuffix)
    (model requestedModel : String) : List String :=
  let model := goTrimSpaceS model
  let requested := goTrimSpaceS requestedModel
  if model = "" ∧ requested = "" then []
  else
    let add : List String × List String → String → List String × List String :=
      fun st value =>
        let v := goTrimSpaceS value
        if v = "" then st
        else
          let key := goToLowerS v
          if st.2.contains key then st else (st.1 ++ [v], st.2 ++ [key])
    let st0 : List String × List String := ([], [])
    let st1 := if model ≠ "" then add st0 model else st0
    let st2 :=
      if requested ≠ "" then
        let parsed := parseSuffix requested
        let base := goTrimSpaceS parsed.modelName
        let st2a := if base ≠ "" then add st1 base else st1
        if parsed.hasSuffix then add st2a requested else st2a
      else st1
    st2.1

/-- `buildPayloadPath`: an empty root leaves the path as-is; an empty
path selects the root; otherwise a leading dot is stripped and the
path is appended to the root with a dot. -/
def buildPayloadPath (root path : String) : String :=
  let r := goTrimSpaceS root
  let p := goTrimSpaceS path
  if r = "" then p
  else if p = "" then r
  else
    let p2 := match p.data with
      | '.' :: rest => String.mk rest
      | _ => p
  r ++ "." ++ p2

/-- Param loop of a matching `default` rule: write a path only when it
is absent from `source` (the original payload) and was not already
written by an earlier default-class rule; record written paths. -/
def applyDefaultParams (source : Json) (root : String) :
    List (String × Json) → Json × List String → Json × List String
  | [], st => st
  | (path, value) :: rest, (out, applied) =>
    let fullPath := buildPayloadPath root path
    if fullPath = "" then applyDefaultParams source root rest (out, applied)
    else if (Json.getPath source fullPath).isSome then
      applyDefaultParams source root rest (out, applied)
    else if applied.contains fullPath then
      applyDefaultParams source root rest (out, applied)
    else
      applyDefaultParams source root rest
        (Json.setPath out fullPath value, applied ++ [fullPath])

/-- Param loop of a matching `default-raw` rule: as for `default`,
with values that `jsonutil.RawValue` rejects skipped. -/
def applyDefaultRawParams (source : Json) (root : String) :
    List (String × Option Json) → Json × List String → Json × List String
  | [], st => st
  | (path, value) :: rest, (out, applied) =>
    let fullPath := buildPayloadPath root path
    if fullPath = "" then applyDefaultRawParams source root rest (out, applied)
    else if (Json.getPath source fullPath).isSome then
      applyDefaultRawParams source root rest (out, applied)
    else if applied.contains fullPath then
      applyDefaultRawParams source root rest (out, applied)
    else
      match value with
      | none => applyDefaultRawParams source root rest (out, applied)
      | some v =>
        applyDefaultRawParams source root rest
          (Json.setPath out fullPath v, applied ++ [fullPath])

/-- Param loop of a matching `override` rule: always write. -/
def applyOverrideParams (root : String) : List (String × Json) → Json → Json
  | [], out => out
  | (path, value) :: rest, out =>
    let fullPath := buildPayloadPath root path
    if fullPath = "" then applyOverrideParams root rest out
    else applyOverrideParams root rest (Json.setPath out fullPath value)

/-- Param loop of a matching `override-raw` rule. -/
def applyOverrideRawParams (root : String) : List (String × Option Json) → Json → Json
  | [], out => out
  | (path, value) :: rest, out =>
    let fullPath := buildPayloadPath root path
    if fullPath = "" then applyOverrideRawParams root rest out
    else
      match value with
      | none => applyOverrideRawParams root rest out
      | some v => applyOverrideRawParams root rest (Json.setPath out fullPath v)

/-- Param loop of a matching `filter` rule: delete the paths. -/
def applyFilterParams (root : String) : List String → Json → Json
  | [], out => out
  | path :: rest, out =>
    let fullPath := buildPayloadPath root path
    if fullPath = "" then applyFilterParams root rest out
    else applyFilterParams root rest (Json.delPath out fullPath)

/-- Rule loop over the `default` class. -/
def applyDefaultRules (protocol : String) (cands : List String) (source : Json)
    (root : String) : List PayloadRule → Json × List String → Json × List String
  | [], st => st
  | rule :: rest, st =>
    applyDefaultRules protocol cands source root rest
      (if payloadModelRulesMatch rule.models protocol cands then
        applyDefaultParams source root rule.params st
      else st)

/-- Rule loop over the `default-raw` class. -/
def applyDefaultRawRules (protocol : String) (cands : List String) (source : Json)
    (root : String) : List PayloadRawRule → Json × List String → Json × List String
  | [], st => st
  | rule :: rest, st =>
    applyDefaultRawRules protocol cands source root rest
      (if payloadModelRulesMatch rule.models protocol cands then
        applyDefaultRawParams source root rule.params st
      else st)

/-- Rule loop over the `override` class. -/
def applyOverrideRules (protocol : String) (cands : List String) (root : String) :
    List PayloadRule → Json → Json
  | [], out => out
  | rule :: rest, out =>
    applyOverrideRules protocol cands root rest
      (if payloadModelRulesMatch rule.models protocol cands then
        applyOverrideParams root rule.params out
      else out)

/-- Rule loop over the `override-raw` class. -/
def applyOverrideRawRules (protocol : String) (cands : List String) (root : String) :
    List PayloadRawRule → Json → Json
  | [], out => out
  | rule :: rest, out =>
    applyOverrideRawRules protocol cands root rest
      (if payloadModelRulesMatch rule.models protocol cands then
        applyOverrideRawParams root rule.params out
      else out)

/-- Rule loop over the `filter` class. -/
def applyFilterRules (protocol : String) (cands : List String) (root : String) :
    List PayloadFilterRule → Json → Json
  | [], out => out
  | rule :: rest, out =>
    applyFilterRules protocol cands root rest
      (if payloadModelRulesMatch rule.models protocol cands then
        applyFilterParams root rule.params out
      else out)

/-- `applyPayloadConfigWithRoot`: candidates are computed once, the
default source is the original payload when given (else the working
payload), and the five classes run in order default, default-raw,
override, override-raw, filter with a shared written-paths set across
the two default classes. The Go nil-config and empty-payload guards
return the payload unchanged and are outside this model (a `Json`
payload is present). -/
def applyPayloadConfigWithRoot (parseSuffix : String → ParsedSuffix)
    (cfg : PayloadConfig) (model protocol root : String) (payload : Json)
    (original : Option Json) (requestedModel : String) : Json :=
  if cfg.default.isEmpty && cfg.defaultRaw.isEmpty && cfg.override.isEmpty &&
      cfg.overrideRaw.isEmpty && cfg.filter.isEmpty then payload
  else
    let model := goTrimSpaceS model
    let requested := goTrimSpaceS requestedModel
    if model = "" ∧ requested = "" then payload
    else
      let cands := payloadModelCandidates parseSuffix model requested
      let source := match original with | some o => o | none => payload
      let st1 := applyDefaultRules protocol cands source root cfg.default (payload, [])
      let st2 := applyDefaultRawRules protocol cands source root cfg.defaultRaw st1
      let out3 := applyOverrideRules protocol cands root cfg.override st2.1
      let out4 := applyOverrideRawRules protocol cands root cfg.overrideRaw out3
      applyFilterRules protocol cands root cfg.filter out4

/-- Working payload fixture for the payload-rule theorem: `request.a`
and `request.h` present. -/
def payloadWorkingExample : Json :=
  Json.obj [("request", Json.obj
    [("a", Json.str "work-a"), ("h", Json.str "work-h")])]

/-- Original translated payload fixture: `request.a` and `request.k`
present; note `h` is absent here although the working copy carries it. -/
def payloadOriginalExample : Json :=
  Json.obj [("request", Json.obj
    [("a", Json.str "orig-a"), ("k", Json.str "orig-k")])]

/-- A matcher list matching every model on any protocol. -/
def matchAllRule : List PayloadModelRule := [⟨"*", ""⟩]

/-- Payload rule set with variable values, exercising every rule class:
a non-matching model pattern and a protocol-mismatched matcher, two
matching default rules sharing the path `b`, a default-raw rule also
targeting `b` plus a rejected raw value at `x`, two override rules both
writing `e`, an override-raw rule rewriting `e` and a rejected `y`, and
a filter deleting `a`. -/
def payloadCfgExample (va vb1 vb2 vbr vc vd ve1 ve2 ve3 vh vk vz vw : Json) :
    PayloadConfig :=
  ⟨[⟨[⟨"other-*", ""⟩], [("b", vz), ("z", vz)]⟩,
    ⟨matchAllRule, [("a", va), ("b", vb1), ("h", vh), ("k", vk)]⟩,
    ⟨matchAllRule, [("b", vb2), ("c", vc)]⟩,
    ⟨[⟨"*", "claude"⟩], [("w", vw)]⟩],
   [⟨matchAllRule, [("b", some vbr), ("d", some vd), ("x", none)]⟩],
   [⟨matchAllRule, [("e", ve1)]⟩, ⟨matchAllRule, [("e", ve2)]⟩],
   [⟨matchAllRule, [("e", some ve3), ("y", none)]⟩],
   [⟨matchAllRule, ["a"]⟩]⟩

/-- The payload after applying the example rule set for model `gpt-5`,
protocol `openai`, root `request`, with the distinct original. -/
def payloadRulesResult (parseSuffix : String → ParsedSuffix)
    (va vb1 vb2 vbr vc vd ve1 ve2 ve3 vh vk vz vw : Json) : Json :=
  applyPayloadConfigWithRoot parseSuffix
    (payloadCfgExample va vb1 vb2 vbr vc vd ve1 ve2 ve3 vh vk vz vw)
    "gpt-5" "openai" "request" payloadWorkingExample
    (some payloadOriginalExample) ""

/-! Kiro tool compression (`tool_compression.go`). The wrapper structs'
declarations, their JSON tags, and the `kirocommon` thresholds live
outside src/, so the serialized-size function (`calculateToolsSize`,
whose value is the length of `json.Marshal` of the wrapper list) and
the two constants `ToolCompressionTargetSize` and
`MinToolDescriptionLength` are parameters; every theorem below holds
for all of them. Schema values travel as `Json` trees (a Go `nil`
interface is `Json.null`); descriptions are ASCII, where Go's byte
indices coincide with character indices and `utf8.RuneStart` holds at
every position, so the boundary back-off loop is the identity.
`float64` arithmetic of the keep ratio is modelled by `ℚ` with `Go`'s
nonnegative `int()` conversion as the floor. -/

/-- `KiroToolSpecification`: name, description, and the
`inputSchema.json` payload. -/
structure KiroToolSpecification where
  name : String
  description : String
  inputSchema : Json

/-- `KiroToolWrapper`. -/
structure KiroToolWrapper where
  toolSpecification : KiroToolSpecification

mutual

/-- Node count of a JSON document, an upper bound on its depth used to
seed the fuel of `simplifyInputSchema`. -/
def jsonSize : Json → Nat
  | Json.null => 1
  | Json.bool _ => 1
  | Json.num _ => 1
  | Json.str _ => 1
  | Json.arr elems => 1 + jsonSizeList elems
  | Json.obj fields => 1 + jsonSizeFields fields

/-- Node count of an element list. -/
def jsonSizeList : List Json → Nat
  | [] => 0
  | j :: rest => jsonSize j + jsonSizeList rest

/-- Node count of a field list. -/
def jsonSizeFields : List (String × Json) → Nat
  | [] => 0
  | (_, j) :: rest => jsonSize j + jsonSizeFields rest

end

/-- `simplifyInputSchema`: a nil schema stays nil, a non-map schema is
returned as-is, and a map keeps only `type`, `enum`, `required`,
recursively simplified `properties` values (when `properties` is a
map), `items`, `additionalProperties`, and elementwise-simplified
`anyOf`/`oneOf`/`allOf` (when those are arrays). The fuel only bounds
nesting depth; the entry point seeds it with the node count, which
always suffices. -/
def simplifyInputSchema : Nat → Json → Json
  | 0, schema => schema
  | fuel + 1, schema =>
    match schema with
    | Json.null => Json.null
    | Json.obj fields =>
      let keep := fun (key : String) =>
        match Json.lookupField fields key with
        | some v => [(key, v)]
        | none => []
      let props :=
        match Json.lookupField fields "properties" with
        | some (Json.obj pf) =>
          [("properties", Json.obj (pf.map (fun kv => (kv.1, simplifyInputSchema fuel kv.2))))]
        | _ => []
      let items :=
        match Json.lookupField fields "items" with
        | some v => [("items", simplifyInputSchema fuel v)]
        | none => []
      let addl :=
        match Json.lookupField fields "additionalProperties" with
        | some v => [("additionalProperties", simplifyInputSchema fuel v)]
        | none => []
      let ofKey := fun (key : String) =>
        match Json.lookupField fields key with
        | some (Json.arr xs) => [(key, Json.arr (xs.map (simplifyInputSchema fuel)))]
        | _ => []
      Json.obj (keep "type" ++ keep "enum" ++ keep "required" ++ props ++ items ++ addl ++
        ofKey "anyOf" ++ ofKey "oneOf" ++ ofKey "allOf")
    | other => other

/-- `simplifyInputSchema` at its always-sufficient fuel. -/
def simplifyInputSchemaTop (schema : Json) : Json :=
  simplifyInputSchema (jsonSize schema) schema

/-- `compressToolDescription`: raise the target to the minimum length,
return short-enough descriptions unchanged, else truncate leaving room
for an ellipsis (with the degenerate non-positive-truncation fallback
cutting at the minimum length). -/
def compressToolDescription (minDescLen : Nat) (description : String)
    (targetLength : Int) : String :=
  let target : Int := if targetLength < (minDescLen : Int) then (minDescLen : Int) else targetLength
  if (description.data.length : Int) ≤ target then description
  else
    let truncLen : Int := target - 3
    if truncLen ≤ 0 then String.mk (description.data.take minDescLen)
    else String.mk (description.data.take truncLen.toNat ++ ['.', '.', '.'])

/-- `compressToolsIfNeeded`: within-threshold lists pass through;
otherwise fresh copies get their schemas simplified, and if still over
the threshold their descriptions are cut to the proportional keep
fraction (clamped to [0, 1]) of their lengths. -/
def compressToolsIfNeeded (toolsSize : List KiroToolWrapper → Nat)
    (targetSize minDescLen : Nat) (tools : List KiroToolWrapper) :
    List KiroToolWrapper :=
  if tools.isEmpty then tools
  else if toolsSize tools ≤ targetSize then tools
  else
    let compressedTools := tools.map (fun t =>
      ⟨⟨t.toolSpecification.name, t.toolSpecification.description,
        simplifyInputSchemaTop t.toolSpecification.inputSchema⟩⟩)
    if toolsSize compressedTools ≤ targetSize then compressedTools
    else
      let sizeToReduce : ℚ := (toolsSize compressedTools : ℚ) - (targetSize : ℚ)
      let totalDescLen : ℚ := compressedTools.foldl
        (fun acc t => acc + (t.toolSpecification.description.data.length : ℚ)) 0
      if totalDescLen > 0 then
        let keepFrac0 : ℚ := 1 - sizeToReduce / totalDescLen
        let keepFrac : ℚ := if keepFrac0 > 1 then 1 else if keepFrac0 < 0 then 0 else keepFrac0
        compressedTools.map (fun t =>
          let desc := t.toolSpecification.description
          let targetLen : Int := Int.floor ((desc.data.length : ℚ) * keepFrac)
          ⟨⟨t.toolSpecification.name, compressToolDescription minDescLen desc targetLen,
            t.toolSpecification.inputSchema⟩⟩)
      else compressedTools

/-- A sample tool for the compression witness. -/
def kiroToolExample : KiroToolWrapper :=
  ⟨⟨"get_weather", "Returns the weather.", Json.obj [("type", Json.str "object")]⟩⟩

/-! The Antigravity request loops of `Execute` and `ExecuteStream`.
The upstream is a function from the call counter to the response
received; transport-level failures, context cancellation, and the wait
between attempts are impure and outside the model (every `httpClient.Do`
yields a response, so the `errDo`/`errRead` branches never fire).
`parseRetryDelay` lives outside src/ and is a parameter `prd` mapping a
body to `some delay` exactly when Go's call returns a nil error and a
non-nil delay — the only combination either caller distinguishes.
Stream-start validation (`validateStreamStart`) reads the live response
body; its retry verdict on a 2xx call is abstracted as a per-call
flag. -/

/-- `startsWith` on character lists. -/
def startsWithL : List Char → List Char → Bool
  | _, [] => true
  | [], _ :: _ => false
  | h :: hs, n :: ns => h = n && startsWithL hs ns

/-- `strings.Contains` on character lists. -/
def containsSub : List Char → List Char → Bool
  | [], needle => needle.isEmpty
  | h :: rest, needle => startsWithL (h :: rest) needle || containsSub rest needle

/-- One upstream HTTP response: status code and body. -/
structure UpstreamResponse where
  status : Nat
  body : String

/-- `statusErr` as the Antigravity request loops build it: code,
message, and the optional structured retry delay attached to a 429. -/
structure AntigravityStatusErr where
  code : Nat
  msg : String
  retryAfter : Option Int
deriving DecidableEq

/-- Result of `Execute`: a translated success payload or an error. -/
inductive ExecResult where
  | success (body : String)
  | failure (e : AntigravityStatusErr)
deriving DecidableEq

/-- Result of `ExecuteStream`: the established stream (tagged with the
upstream call that produced it) or an error. -/
inductive StreamResult where
  | stream (callIndex : Nat)
  | failure (e : AntigravityStatusErr)
deriving DecidableEq

/-- `isBare429`: a 429 whose body yields no structured retry delay. -/
def isBare429 (prd : String → Option Int) (statusCode : Nat) (body : String) : Bool :=
  if statusCode ≠ 429 then false
  else (prd body).isNone

/-- `antigravityShouldRetryNoCapacity`: 503 with a non-empty body
whose lowercase form contains "no capacity available". -/
def antigravityShouldRetryNoCapacity (statusCode : Nat) (body : String) : Bool :=
  if statusCode ≠ 503 then false
  else if body.data.isEmpty then false
  else containsSub (goToLowerS body).data "no capacity available".data

/-- The three defaults of `antigravityBaseURLFallbackOrder` when no
custom base URL is configured. -/
def antigravityDefaultBaseURLs : List String :=
  ["https://daily-cloudcode-pa.sandbox.googleapis.com",
   "https://daily-cloudcode-pa.googleapis.com",
   "https://cloudcode-pa.googleapis.com"]

/-- The base-URL loop of `Execute` (the non-Claude path, from the
request loop onward): a 2xx response succeeds; a 429 with another base
URL remaining falls through to it; any other non-2xx — and a 429 on
the last base URL — returns the status error at once, with the parsed
retry delay attached to a 429. There is no outer attempt loop. The
`last` pair mirrors `lastStatus`/`lastBody` for the post-loop switch,
reachable only with an empty base-URL list here. -/
def antigravityExecuteLoop (prd : String → Option Int)
    (upstream : Nat → UpstreamResponse) :
    List String → Nat → Option (Nat × String) → ExecResult
  | [], _, last =>
    match last with
    | some (st, body) =>
      ExecResult.failure ⟨st, body, if st = 429 then prd body else none⟩
    | none =>
      ExecResult.failure ⟨503, "antigravity executor: no base url available", none⟩
  | _ :: restURLs, n, _ =>
    let r := upstream n
    if 200 ≤ r.status ∧ r.status < 300 then ExecResult.success r.body
    else if r.status = 429 ∧ ¬restURLs.isEmpty then
      antigravityExecuteLoop prd upstream restURLs (n + 1) (some (r.status, r.body))
    else
      ExecResult.failure ⟨r.status, r.body, if r.status = 429 then prd r.body else none⟩

/-- `Execute` for the Antigravity executor, abstracted over the
upstream. -/
def antigravityExecute (prd : String → Option Int)
    (upstream : Nat → UpstreamResponse) (baseURLs : List String) : ExecResult :=
  antigravityExecuteLoop prd upstream baseURLs 0 none

/-- Verdict of one pass of `ExecuteStream`'s inner base-URL loop:
finished with a result, or `continue attemptLoop` carrying the next
call counter. -/
inductive InnerOutcome where
  | done (r : StreamResult)
  | retryOuter (nextCall : Nat)

/-- The inner base-URL loop of `ExecuteStream` at a given attempt: a
bare 429 before the last attempt restarts the outer loop (after the
backoff wait); the dead in-429 no-capacity check is kept as in the
source; a 429 with another base URL remaining falls through to it; any
remaining non-2xx returns the status error; a 2xx that fails
stream-start validation before the last attempt also restarts the
outer loop, and otherwise the stream is returned. -/
def streamAttemptInner (prd : String → Option Int)
    (upstream : Nat → UpstreamResponse) (validationRetry : Nat → Bool)
    (attempts attempt : Nat) :
    List String → Nat → Option (Nat × String) → InnerOutcome
  | [], n, last =>
    match last with
    | some (st, body) =>
      if st = 429 ∧ isBare429 prd st body then InnerOutcome.retryOuter n
      else InnerOutcome.done (.failure ⟨st, body, if st = 429 then prd body else none⟩)
    | none =>
      InnerOutcome.done
        (.failure ⟨503, "antigravity executor: no base url available", none⟩)
  | _ :: restURLs, n, _ =>
    let r := upstream n
    if 200 ≤ r.status ∧ r.status < 300 then
      if validationRetry n ∧ attempt < attempts - 1 then InnerOutcome.retryOuter (n + 1)
      else InnerOutcome.done (.stream n)
    else if r.status = 429 then
      if isBare429 prd r.status r.body ∧ attempt < attempts - 1 then
        InnerOutcome.retryOuter (n + 1)
      else if antigravityShouldRetryNoCapacity r.status r.body ∧
          (¬restURLs.isEmpty ∨ attempt < attempts - 1) then
        if ¬restURLs.isEmpty then
          streamAttemptInner prd upstream validationRetry attempts attempt restURLs
            (n + 1) (some (r.status, r.body))
        else InnerOutcome.retryOuter (n + 1)
      else if ¬restURLs.isEmpty then
        streamAttemptInner prd upstream validationRetry attempts attempt restURLs
          (n + 1) (some (r.status, r.body))
      else InnerOutcome.done (.failure ⟨429, r.body, prd r.body⟩)
    else
      InnerOutcome.done (.failure ⟨r.status, r.body, none⟩)

/-- The outer `attemptLoop` of `ExecuteStream`; `remaining` counts the
attempts left (`attempts - attempt`), and its exhaustion is the
post-loop "max retry attempts exceeded" error. -/
def streamAttemptLoop (prd : String → Option Int)
    (upstream : Nat → UpstreamResponse) (validationRetry : Nat → Bool)
    (attempts : Nat) (baseURLs : List String) :
    Nat → Nat → Nat → StreamResult
  | 0, _, _ =>
    .failure ⟨503, "antigravity executor: max retry attempts exceeded", none⟩
  | remaining + 1, attempt, n =>
    match streamAttemptInner prd upstream validationRetry attempts attempt baseURLs n none with
    | .done r => r
    | .retryOuter n' =>
      streamAttemptLoop prd upstream validationRetry attempts baseURLs remaining (attempt + 1) n'

/-- `ExecuteStream` for the Antigravity executor, abstracted over the
upstream and the stream-start validation verdicts. -/
def antigravityExecuteStream (prd : String → Option Int)
    (upstream : Nat → UpstreamResponse) (validationRetry : Nat → Bool)
    (attempts : Nat) (baseURLs : List String) : StreamResult :=
  streamAttemptLoop prd upstream validationRetry attempts baseURLs attempts 0 0

/-- The claim's fixture upstream: HTTP 429 with an empty body on the
first `m` calls, HTTP 200 thereafter. -/
def bare429Upstream (m : Nat) : Nat → UpstreamResponse :=
  fun n => if n < m then ⟨429, ""⟩ else ⟨200, "ok"⟩

end ModelGate

namespace ModelGate

/-! Theorems. -/

theorem globMatch_nil_right (p : List Char) :
    globMatch p [] = p.all (fun c => c = '*') := by
  induction p with
  | nil => simp [globMatch]
  | cons c ps ih =>
    by_cases hc : c = '*'
    · subst hc
      simp [globMatch, ih]
    · simp [globMatch, hc]

theorem globMatch_star_iff (ps m : List Char) :
    globMatch ('*' :: ps) m = true ↔ ∃ j, globMatch ps (m.drop j) = true := by
  induction m with
  | nil =>
    simp only [globMatch, List.drop_nil]
    exact ⟨fun h => ⟨0, h⟩, fun ⟨_, h⟩ => h⟩
  | cons x ms ih =>
    simp only [globMatch, Bool.or_eq_true]
    constructor
    · rintro (h | h)
      · exact ⟨0, h⟩
      · obtain ⟨j, hj⟩ := ih.mp h
        exact ⟨j + 1, hj⟩
    · rintro ⟨j, hj⟩
      cases j with
      | zero => exact Or.inl hj
      | succ j' => exact Or.inr (ih.mpr ⟨j', hj⟩)

theorem globMatch_append_block (B : List Char) (hB : ∀ c ∈ B, c ≠ '*') (p m : List Char) :
    globMatch (B ++ p) m = true ↔
      m.take B.length = B ∧ globMatch p (m.drop B.length) = true := by
  induction B generalizing m with
  | nil => simp
  | cons c B' ih =>
    have hc : c ≠ '*' := hB c (List.mem_cons_self c B')
    have hB' : ∀ d ∈ B', d ≠ '*' := fun d hd => hB d (List.mem_cons_of_mem c hd)
    cases m with
    | nil =>
      simp [globMatch, hc]
    | cons x ms =>
      simp only [List.cons_append, globMatch, hc, List.take_succ_cons, List.drop_succ_cons,
        List.length_cons, Bool.and_eq_true, decide_eq_true_eq, List.cons.injEq]
      rw [ih hB' ms]
      constructor
      · rintro ⟨hcx, htake, hglob⟩
        exact ⟨⟨hcx.symm, htake⟩, hglob⟩
      · rintro ⟨⟨hxc, htake⟩, hglob⟩
        exact ⟨hxc.symm, htake, hglob⟩

theorem globSpec_of_globMatch (p m : List Char) (h : globMatch p m = true) : GlobSpec p m := by
  induction p generalizing m with
  | nil =>
    simp only [globMatch, List.isEmpty_iff] at h
    subst h
    exact GlobSpec.nil
  | cons c ps ih =>
    by_cases hc : c = '*'
    · subst hc
      induction m with
      | nil =>
        simp only [globMatch] at h
        exact GlobSpec.starZero (ih [] h)
      | cons x ms ihm =>
        simp only [globMatch, Bool.or_eq_true] at h
        rcases h with h | h
        · exact GlobSpec.starZero (ih (x :: ms) h)
        · exact GlobSpec.starMore (ihm h)
    · cases m with
      | nil => simp [globMatch, hc] at h
      | cons x ms =>
        simp only [globMatch, hc, Bool.and_eq_true, decide_eq_true_eq] at h
        rcases h with ⟨rfl, h⟩
        exact GlobSpec.lit hc (ih ms h)

theorem globMatch_of_globSpec {p m : List Char} (h : GlobSpec p m) : globMatch p m = true := by
  induction h
  case nil => simp [globMatch]
  case lit c p' m' hc _ ih => simp [globMatch, hc, ih]
  case starZero p' m' _ ih =>
    cases m' with
    | nil => simp [globMatch, ih]
    | cons x ms => simp [globMatch, ih]
  case starMore p' m' x _ ih => simp [globMatch, ih]

theorem globMatch_iff_globSpec (p m : List Char) :
    globMatch p m = true ↔ GlobSpec p m :=
  ⟨globSpec_of_globMatch p m, globMatch_of_globSpec⟩

theorem globSpec_star_univ (m : List Char) : GlobSpec ['*'] m := by
  induction m with
  | nil => exact GlobSpec.starZero GlobSpec.nil
  | cons x ms ih => exact GlobSpec.starMore ih

theorem globMatch_cons_cons_ne_star (c x : Char) (hc : c ≠ '*') (ps ms : List Char) :
    globMatch (c :: ps) (x :: ms) = ((c = x : Bool) && globMatch ps ms) := by
  simp [globMatch, hc]

theorem globMatch_cons_nil_ne_star (c : Char) (hc : c ≠ '*') (ps : List Char) :
    globMatch (c :: ps) [] = false := by
  simp [globMatch, hc]

theorem matchLoopF_zero (p m : List Char) (pi si : Nat) (star : Option Nat) (mi : Nat) :
    matchLoopF p m 0 pi si star mi =
      if si < m.length then false else trailingStarsOnly p pi := rfl

theorem matchLoopF_succ (p m : List Char) (fuel pi si : Nat) (star : Option Nat) (mi : Nat) :
    matchLoopF p m (fuel + 1) pi si star mi =
      if si < m.length then
        (if pi < p.length ∧ p.get? pi = m.get? si then
          matchLoopF p m fuel (pi + 1) (si + 1) star mi
        else if pi < p.length ∧ p.get? pi = some '*' then
          matchLoopF p m fuel (pi + 1) si (some pi) si
        else
          match star with
          | some s => matchLoopF p m fuel (s + 1) (mi + 1) (some s) (mi + 1)
          | none => false)
      else trailingStarsOnly p pi := rfl

theorem glob_head_mismatch (p m : List Char) (pi si : Nat) (hsi : si < m.length)
    (hb1 : ¬(pi < p.length ∧ p.get? pi = m.get? si))
    (hb2 : ¬(pi < p.length ∧ p.get? pi = some '*')) :
    ¬ globMatch (p.drop pi) (m.drop si) = true := by
  have hmdrop : m.drop si = m[si] :: m.drop (si + 1) := List.drop_eq_getElem_cons hsi
  by_cases hpi : pi < p.length
  · have hpdrop : p.drop pi = p[pi] :: p.drop (pi + 1) := List.drop_eq_getElem_cons hpi
    have hget : p.get? pi = some p[pi] := by
      simp [List.get?_eq_getElem?, List.getElem?_eq_getElem hpi]
    have hmget : m.get? si = some m[si] := by
      simp [List.get?_eq_getElem?, List.getElem?_eq_getElem hsi]
    have hne : p[pi] ≠ m[si] := by
      intro h
      exact hb1 ⟨hpi, by rw [hget, hmget, h]⟩
    have hnstar : p[pi] ≠ '*' := by
      intro h
      exact hb2 ⟨hpi, by rw [hget, h]⟩
    rw [hpdrop, hmdrop, globMatch_cons_cons_ne_star _ _ hnstar]
    simp [hne]
  · have hpdrop : p.drop pi = [] := by
      simp only [List.drop_eq_nil_iff]
      omega
    rw [hpdrop]
    simp only [globMatch]
    simp [List.isEmpty_iff, List.drop_eq_nil_iff]
    omega

theorem matchLoop_exit_spec (p m : List Char) (hm : ∀ c ∈ m, c ≠ '*')
    (pi si : Nat) (star : Option Nat) (mi : Nat) (hsi : ¬ si < m.length)
    (hinv : LoopInv p m pi si star mi) :
    (trailingStarsOnly p pi = true ↔ LoopSpec p m pi si star mi) := by
  obtain ⟨hpn, hsn, hms, hstar⟩ := hinv
  have hsieq : si = m.length := by omega
  have hmd : m.drop si = [] := by
    simp only [List.drop_eq_nil_iff]
    omega
  cases star with
  | none =>
    simp only [LoopSpec, hmd, globMatch_nil_right, trailingStarsOnly]
  | some s =>
    obtain ⟨hsp, hgs, B, hpB, hmB⟩ := hstar
    rw [hmd, List.append_nil] at hmB
    have hBfree : ∀ c ∈ B, c ≠ '*' := by
      intro c hc
      exact hm c (List.drop_subset mi m (hmB ▸ hc))
    have hBlen : m.length - mi = B.length := by
      have := congrArg List.length hmB
      simpa using this
    simp only [LoopSpec]
    constructor
    · intro htrail
      refine ⟨mi, le_refl mi, ?_⟩
      rw [hpB, hmB]
      rw [globMatch_append_block B hBfree]
      refine ⟨by simp, ?_⟩
      rw [List.drop_length, globMatch_nil_right]
      exact htrail
    · rintro ⟨j, hj, hg⟩
      rw [hpB] at hg
      rw [globMatch_append_block B hBfree] at hg
      obtain ⟨htake, hg⟩ := hg
      rw [List.drop_drop] at hg
      have hdropnil : m.drop (j + B.length) = [] := by
        simp only [List.drop_eq_nil_iff]
        omega
      rw [hdropnil, globMatch_nil_right] at hg
      exact hg

/-- Claim C4: for every attempt index `n ≥ 0` the Antigravity retry
delay is `(n+1) × 250 ms` capped at 2 s, and the total attempt count is
`1 + requestRetry` (per-auth override first, clamped to at least 1). -/
theorem antigravity_retry_schedule :
    (∀ n : Int, 0 ≤ n →
      antigravityNoCapacityRetryDelay n = min ((n + 1) * (250 * millisecond)) (2 * second)) ∧
    (∀ auth cfg, antigravityRetryAttempts auth cfg =
      max 1 (1 + configuredRequestRetry auth cfg)) := by
  constructor
  · intro n hn
    simp only [antigravityNoCapacityRetryDelay, millisecond, second]
    have hneg : ¬ n < 0 := by omega
    simp only [hneg, if_false]
    split <;> omega
  · intro auth cfg
    cases auth with
    | none =>
      cases cfg <;> simp [antigravityRetryAttempts, configuredRequestRetry] <;> split <;> omega
    | some a =>
      cases ha : a.requestRetryOverride with
      | none =>
        cases cfg <;>
          simp [antigravityRetryAttempts, configuredRequestRetry, ha] <;> split <;> omega
      | some o =>
        cases cfg <;>
          simp [antigravityRetryAttempts, configuredRequestRetry, ha] <;> split <;> omega

theorem star_shift (p m : List Char) (hm : ∀ c ∈ m, c ≠ '*') (s pi si mi : Nat)
    (B : List Char) (hpi : pi < p.length) (hpstar : p.get? pi = some '*')
    (hpB : p.drop (s + 1) = B ++ p.drop pi) (hmB : m.drop mi = B ++ m.drop si)
    (hsn : si ≤ m.length) (hms : mi ≤ si) :
    ((∃ j, mi ≤ j ∧ globMatch (p.drop (s + 1)) (m.drop j) = true) ↔
     (∃ j, si ≤ j ∧ globMatch (p.drop (pi + 1)) (m.drop j) = true)) := by
  have hpget : p.get? pi = some p[pi] := by
    simp [List.get?_eq_getElem?, List.getElem?_eq_getElem hpi]
  have hpc : p[pi] = '*' := by
    rw [hpget] at hpstar
    exact Option.some.inj hpstar
  have hpdrop : p.drop pi = '*' :: p.drop (pi + 1) := by
    rw [List.drop_eq_getElem_cons hpi, hpc]
  have hpB' : p.drop (s + 1) = B ++ '*' :: p.drop (pi + 1) := by
    rw [hpB, hpdrop]
  have hBfree : ∀ c ∈ B, c ≠ '*' := by
    intro c hc
    exact hm c (List.drop_subset mi m (hmB ▸ List.mem_append_left (m.drop si) hc))
  have hlen : si = mi + B.length := by
    have := congrArg List.length hmB
    simp at this
    omega
  constructor
  · rintro ⟨j, hj, hg⟩
    rw [hpB', globMatch_append_block B hBfree] at hg
    obtain ⟨htake, hg⟩ := hg
    rw [List.drop_drop, globMatch_star_iff] at hg
    obtain ⟨j', hg⟩ := hg
    rw [List.drop_drop] at hg
    exact ⟨j + B.length + j', by omega, hg⟩
  · rintro ⟨j, hj, hg⟩
    refine ⟨mi, le_refl mi, ?_⟩
    rw [hpB', hmB, globMatch_append_block B hBfree]
    refine ⟨List.take_left B (m.drop si), ?_⟩
    rw [List.drop_left, globMatch_star_iff]
    refine ⟨j - si, ?_⟩
    rw [List.drop_drop, show si + (j - si) = j from by omega]
    exact hg

theorem matchLoopF_spec (p m : List Char) (hm : ∀ c ∈ m, c ≠ '*') :
    ∀ fuel pi si star mi, loopMeasure p m pi si mi ≤ fuel →
      LoopInv p m pi si star mi →
      (matchLoopF p m fuel pi si star mi = true ↔ LoopSpec p m pi si star mi) := by
  intro fuel
  induction fuel with
  | zero =>
    intro pi si star mi hfuel hinv
    rw [matchLoopF_zero]
    by_cases hsi : si < m.length
    · exfalso
      simp only [loopMeasure] at hfuel
      omega
    · rw [if_neg hsi]
      exact matchLoop_exit_spec p m hm pi si star mi hsi hinv
  | succ fuel ih =>
    intro pi si star mi hfuel hinv
    rw [matchLoopF_succ]
    by_cases hsi : si < m.length
    case neg =>
      rw [if_neg hsi]
      exact matchLoop_exit_spec p m hm pi si star mi hsi hinv
    rw [if_pos hsi]
    obtain ⟨hpn, hsn, hms, hstar⟩ := hinv
    have hmget : m.get? si = some m[si] := by
      simp [List.get?_eq_getElem?, List.getElem?_eq_getElem hsi]
    have hmsine : m[si] ≠ '*' := hm _ (List.getElem_mem hsi)
    have hmdrop : m.drop si = m[si] :: m.drop (si + 1) := List.drop_eq_getElem_cons hsi
    by_cases hb1 : pi < p.length ∧ p.get? pi = m.get? si
    · rw [if_pos hb1]
      obtain ⟨hpi, hpeq⟩ := hb1
      have hpget : p.get? pi = some p[pi] := by
        simp [List.get?_eq_getElem?, List.getElem?_eq_getElem hpi]
      have hpdrop : p.drop pi = p[pi] :: p.drop (pi + 1) := List.drop_eq_getElem_cons hpi
      have hpp : p[pi] = m[si] := by
        rw [hpget, hmget] at hpeq
        exact Option.some.inj hpeq
      have hinv' : LoopInv p m (pi + 1) (si + 1) star mi := by
        refine ⟨by omega, by omega, by omega, ?_⟩
        cases star with
        | none => trivial
        | some s =>
          obtain ⟨hsp, hgs, B, hpB, hmB⟩ := hstar
          refine ⟨hsp, hgs, B ++ [p[pi]], ?_, ?_⟩
          · rw [hpB, hpdrop]
            simp
          · rw [hmB, hmdrop, hpp]
            simp
      have hmeas : loopMeasure p m (pi + 1) (si + 1) mi ≤ fuel := by
        simp only [loopMeasure] at hfuel ⊢
        omega
      rw [ih (pi + 1) (si + 1) star mi hmeas hinv']
      cases star with
      | none =>
        simp only [LoopSpec]
        rw [hpdrop, hmdrop, hpp, globMatch_cons_cons_ne_star _ _ hmsine]
        simp
      | some s => exact Iff.rfl
    · rw [if_neg hb1]
      by_cases hb2 : pi < p.length ∧ p.get? pi = some '*'
      · rw [if_pos hb2]
        obtain ⟨hpi, hpstar⟩ := hb2
        have hinv' : LoopInv p m (pi + 1) si (some pi) si :=
          ⟨by omega, hsn, le_refl si, hpi, hpstar, [], by simp, by simp⟩
        have hmeas : loopMeasure p m (pi + 1) si si ≤ fuel := by
          simp only [loopMeasure] at hfuel ⊢
          have hmul : (m.length - si) * (p.length + m.length + 2) ≤
              (m.length - mi) * (p.length + m.length + 2) :=
            Nat.mul_le_mul_right _ (by omega)
          omega
        rw [ih (pi + 1) si (some pi) si hmeas hinv']
        have hpget : p.get? pi = some p[pi] := by
          simp [List.get?_eq_getElem?, List.getElem?_eq_getElem hpi]
        have hpc : p[pi] = '*' := by
          rw [hpget] at hpstar
          exact Option.some.inj hpstar
        have hpdrop : p.drop pi = '*' :: p.drop (pi + 1) := by
          rw [List.drop_eq_getElem_cons hpi, hpc]
        cases star with
        | none =>
          simp only [LoopSpec]
          rw [hpdrop]
          constructor
          · rintro ⟨j, hj, hg⟩
            rw [globMatch_star_iff]
            refine ⟨j - si, ?_⟩
            rw [List.drop_drop, show si + (j - si) = j from by omega]
            exact hg
          · intro hg
            rw [globMatch_star_iff] at hg
            obtain ⟨j', hg⟩ := hg
            rw [List.drop_drop] at hg
            exact ⟨si + j', by omega, hg⟩
        | some s =>
          obtain ⟨hsp, hgs, B, hpB, hmB⟩ := hstar
          simp only [LoopSpec]
          exact (star_shift p m hm s pi si mi B hpi hpstar hpB hmB hsn hms).symm
      · rw [if_neg hb2]
        have hstuck := glob_head_mismatch p m pi si hsi hb1 hb2
        cases star with
        | none =>
          simp only [LoopSpec]
          constructor
          · intro h
            exact absurd h (by simp)
          · intro h
            exact absurd h hstuck
        | some s =>
          obtain ⟨hsp, hgs, B, hpB, hmB⟩ := hstar
          have hinv' : LoopInv p m (s + 1) (mi + 1) (some s) (mi + 1) :=
            ⟨by omega, by omega, le_refl _, hsp, hgs, [], by simp, by simp⟩
          have hmeas : loopMeasure p m (s + 1) (mi + 1) (mi + 1) ≤ fuel := by
            simp only [loopMeasure] at hfuel ⊢
            have h2 : (m.length - mi) * (p.length + m.length + 2) =
                (m.length - (mi + 1)) * (p.length + m.length + 2) +
                  (p.length + m.length + 2) := by
              rw [show m.length - mi = (m.length - (mi + 1)) + 1 from by omega,
                Nat.add_mul, Nat.one_mul]
            omega
          rw [ih (s + 1) (mi + 1) (some s) (mi + 1) hmeas hinv']
          simp only [LoopSpec]
          have hBfree : ∀ c ∈ B, c ≠ '*' := by
            intro c hc
            exact hm c (List.drop_subset mi m (hmB ▸ List.mem_append_left (m.drop si) hc))
          have hGmi : ¬ globMatch (p.drop (s + 1)) (m.drop mi) = true := by
            rw [hpB, hmB, globMatch_append_block B hBfree]
            rintro ⟨htake, hg⟩
            rw [List.drop_left] at hg
            exact hstuck hg
          constructor
          · rintro ⟨j, hj, hg⟩
            exact ⟨j, by omega, hg⟩
          · rintro ⟨j, hj, hg⟩
            rcases Nat.eq_or_lt_of_le hj with heq | hlt
            · exact absurd (by rw [← heq] at hg; exact hg) hGmi
            · exact ⟨j, by omega, hg⟩

theorem lookupField_not_mem (fields : List (String × Json)) (k : String)
    (h : k ∉ fields.map Prod.fst) : Json.lookupField fields k = none := by
  induction fields with
  | nil => rfl
  | cons kv rest ih =>
    obtain ⟨k0, v0⟩ := kv
    simp only [List.map_cons, List.mem_cons, not_or] at h
    simp only [Json.lookupField]
    rw [if_neg (fun he => h.1 he.symm)]
    exact ih h.2

theorem lookupField_setField_self (fields : List (String × Json)) (k : String) (v : Json) :
    Json.lookupField (Json.setField fields k v) k = some v := by
  induction fields with
  | nil => simp [Json.setField, Json.lookupField]
  | cons kv rest ih =>
    obtain ⟨k0, v0⟩ := kv
    by_cases hk : k0 = k
    · simp [Json.setField, Json.lookupField, hk]
    · simp only [Json.setField, hk, if_false, Json.lookupField]
      exact ih

theorem lookupField_setField_ne (fields : List (String × Json)) (k k' : String) (v : Json)
    (h : k ≠ k') : Json.lookupField (Json.setField fields k v) k' =
      Json.lookupField fields k' := by
  induction fields with
  | nil => simp [Json.setField, Json.lookupField, h]
  | cons kv rest ih =>
    obtain ⟨k0, v0⟩ := kv
    by_cases hk : k0 = k
    · simp only [Json.setField, hk, if_true, Json.lookupField]
      rw [if_neg h, if_neg h]
    · simp only [Json.setField, hk, if_false, Json.lookupField]
      by_cases hk' : k0 = k'
      · rw [if_pos hk', if_pos hk']
      · rw [if_neg hk', if_neg hk']
        exact ih

theorem lookupField_removeField_self (fields : List (String × Json)) (k : String)
    (h : (fields.map Prod.fst).Nodup) :
    Json.lookupField (Json.removeField fields k) k = none := by
  induction fields with
  | nil => rfl
  | cons kv rest ih =>
    obtain ⟨k0, v0⟩ := kv
    simp only [List.map_cons, List.nodup_cons] at h
    by_cases hk : k0 = k
    · simp only [Json.removeField, hk, if_true]
      exact lookupField_not_mem rest k (hk ▸ h.1)
    · simp only [Json.removeField, hk, if_false, Json.lookupField]
      exact ih h.2

theorem lookupField_removeField_ne (fields : List (String × Json)) (k k' : String)
    (h : k ≠ k') : Json.lookupField (Json.removeField fields k) k' =
      Json.lookupField fields k' := by
  induction fields with
  | nil => rfl
  | cons kv rest ih =>
    obtain ⟨k0, v0⟩ := kv
    by_cases hk : k0 = k
    · simp only [Json.removeField, hk, if_true, Json.lookupField]
      rw [if_neg h]
    · simp only [Json.removeField, hk, if_false, Json.lookupField]
      by_cases hk' : k0 = k'
      · rw [if_pos hk', if_pos hk']
      · rw [if_neg hk', if_neg hk']
        exact ih

theorem setElem_get (xs : List Json) (i : Nat) (v : Json) :
    (Json.setElem xs i v).get? i = some v := by
  induction xs generalizing i with
  | nil =>
    induction i with
    | zero => rfl
    | succ n ihn => simpa [Json.setElem] using ihn
  | cons x rest ih =>
    cases i with
    | zero => rfl
    | succ n => simpa [Json.setElem] using ih n

theorem getSeg_setSegs_first (j : Json) (k : String) (rest : List String) (v : Json)
    (hk : Json.segIndex? k = none) :
    Json.getSeg (Json.setSegs j (k :: rest) v) k =
      some (Json.setSegs (Json.childAt j k) rest v) := by
  cases j with
  | obj fields =>
    simp only [Json.setSegs, Json.getSeg, Json.childAt]
    rw [lookupField_setField_self]
  | arr elems =>
    simp only [Json.setSegs, Json.getSeg, Json.childAt, hk]
    rw [lookupField_setField_self]
  | null => simp [Json.setSegs, Json.getSeg, Json.childAt, Json.lookupField]
  | bool b => simp [Json.setSegs, Json.getSeg, Json.childAt, Json.lookupField]
  | num n => simp [Json.setSegs, Json.getSeg, Json.childAt, Json.lookupField]
  | str s => simp [Json.setSegs, Json.getSeg, Json.childAt, Json.lookupField]

theorem getSegs_setSegs_self (segs : List String) (j v : Json) :
    Json.getSegs (Json.setSegs j segs v) segs = some v := by
  induction segs generalizing j with
  | nil => simp [Json.setSegs, Json.getSegs]
  | cons k rest ih =>
    cases hk : Json.segIndex? k with
    | none =>
      rw [show Json.getSegs (Json.setSegs j (k :: rest) v) (k :: rest) =
          (match Json.getSeg (Json.setSegs j (k :: rest) v) k with
           | some j' => Json.getSegs j' rest
           | none => none) from rfl]
      rw [getSeg_setSegs_first j k rest v hk]
      exact ih (Json.childAt j k)
    | some i =>
      cases j with
      | arr elems =>
        simp only [Json.setSegs, hk, Json.getSegs, Json.getSeg]
        rw [setElem_get]
        exact ih _
      | obj fields =>
        simp only [Json.setSegs, Json.getSegs, Json.getSeg]
        rw [lookupField_setField_self]
        exact ih _
      | null =>
        simp only [Json.setSegs, Json.getSegs, Json.getSeg, Json.lookupField, if_pos]
        exact ih _
      | bool b =>
        simp only [Json.setSegs, Json.getSegs, Json.getSeg, Json.lookupField, if_pos]
        exact ih _
      | num n =>
        simp only [Json.setSegs, Json.getSegs, Json.getSeg, Json.lookupField, if_pos]
        exact ih _
      | str s =>
        simp only [Json.setSegs, Json.getSegs, Json.getSeg, Json.lookupField, if_pos]
        exact ih _

theorem getSegs_setSegs_ne_first (j : Json) (k k' : String) (rest rest' : List String)
    (v : Json) (hne : k ≠ k') (hk : Json.segIndex? k = none)
    (hk' : Json.segIndex? k' = none) :
    Json.getSegs (Json.setSegs j (k :: rest) v) (k' :: rest') =
      Json.getSegs j (k' :: rest') := by
  cases j with
  | obj fields =>
    simp only [Json.setSegs, Json.getSegs, Json.getSeg]
    rw [lookupField_setField_ne _ _ _ _ hne]
  | arr elems =>
    simp [Json.setSegs, hk, Json.getSegs, Json.getSeg, hk', Json.lookupField, hne]
  | null =>
    simp [Json.setSegs, Json.getSegs, Json.getSeg, Json.lookupField, hne]
  | bool b =>
    simp [Json.setSegs, Json.getSegs, Json.getSeg, Json.lookupField, hne]
  | num n =>
    simp [Json.setSegs, Json.getSegs, Json.getSeg, Json.lookupField, hne]
  | str s =>
    simp [Json.setSegs, Json.getSegs, Json.getSeg, Json.lookupField, hne]

theorem getSegs_delSegs_single_ne (j : Json) (k k' : String) (rest' : List String)
    (hne : k ≠ k') (hk : Json.segIndex? k = none) :
    Json.getSegs (Json.delSegs j [k]) (k' :: rest') = Json.getSegs j (k' :: rest') := by
  cases j with
  | obj fields =>
    simp only [Json.delSegs, Json.getSegs, Json.getSeg]
    rw [lookupField_removeField_ne _ _ _ hne]
  | arr elems => simp only [Json.delSegs, hk]
  | null => simp only [Json.delSegs]
  | bool b => simp only [Json.delSegs]
  | num n => simp only [Json.delSegs]
  | str s => simp only [Json.delSegs]

theorem validateCheckField_isSome_iff (reg : ThinkingRegistry) (model : String)
    (p : Json) (path : String) :
    (validateCheckField reg model p path).isSome = true ↔
      ∃ v, Json.getPath p path = some v ∧
        reg.normalizeReasoningEffortLevel model (Json.gjsonString v) = none := by
  unfold validateCheckField
  cases hg : Json.getPath p path with
  | none => simp
  | some v =>
    cases hn : reg.normalizeReasoningEffortLevel model (Json.gjsonString v) with
    | none =>
      simp only [hn, Option.isSome_some, true_iff]
      exact ⟨v, rfl, hn⟩
    | some l =>
      simp only [hn]
      refine iff_of_false (by simp) ?_
      rintro ⟨w, hw, hwn⟩
      cases hw
      rw [hn] at hwn
      exact Option.noConfusion hwn

theorem validateCheckField_code (reg : ThinkingRegistry) (model : String)
    (p : Json) (path : String) (e : StatusErr)
    (h : validateCheckField reg model p path = some e) : e.code = 400 := by
  have hshape : validateCheckField reg model p path = none ∨
      ∃ m, validateCheckField reg model p path = some { code := 400, msg := m } := by
    unfold validateCheckField
    cases hg : Json.getPath p path with
    | none => exact Or.inl (by simp)
    | some v =>
      cases hn : reg.normalizeReasoningEffortLevel model (Json.gjsonString v) with
      | none =>
        simp only [hn]
        exact Or.inr ⟨_, rfl⟩
      | some l =>
        simp only [hn]
        exact Or.inl (by simp)
  rcases hshape with hnone | ⟨msg, hsome⟩
  · rw [hnone] at h
    exact Option.noConfusion h
  · rw [hsome] at h
    injection h with h'
    rw [← h']

/-- Claim C6: for a non-empty model name, `ValidateThinkingConfig`
reports an error exactly when the model is level-based (and supports
thinking) and one of `reasoning_effort`, `reasoning.effort` is present
but does not normalize to a known level; every reported error carries
HTTP 400. -/
theorem validateThinkingConfig_400_iff (reg : ThinkingRegistry) (p : Json)
    (model : String) (hmodel : model ≠ "") :
    ((ValidateThinkingConfig reg (some p) model).isSome = true ↔
      (reg.modelSupportsThinking model = true ∧ reg.modelUsesThinkingLevels model = true ∧
        ((∃ v, Json.getPath p "reasoning_effort" = some v ∧
            reg.normalizeReasoningEffortLevel model (Json.gjsonString v) = none) ∨
         (∃ v, Json.getPath p "reasoning.effort" = some v ∧
            reg.normalizeReasoningEffortLevel model (Json.gjsonString v) = none)))) ∧
    (∀ e, ValidateThinkingConfig reg (some p) model = some e → e.code = 400) := by
  have hunfold : ValidateThinkingConfig reg (some p) model =
      (if !reg.modelSupportsThinking model || !reg.modelUsesThinkingLevels model then none
       else
         match validateCheckField reg model p "reasoning_effort" with
         | some e => some e
         | none => validateCheckField reg model p "reasoning.effort") := by
    simp [ValidateThinkingConfig, hmodel]
  constructor
  · rw [hunfold]
    by_cases hguard : (!reg.modelSupportsThinking model || !reg.modelUsesThinkingLevels model) = true
    · rw [if_pos hguard]
      simp only [Bool.or_eq_true, Bool.not_eq_true'] at hguard
      refine iff_of_false (by simp) ?_
      rintro ⟨hs, hl, _⟩
      rcases hguard with hg | hg
      · rw [hs] at hg; exact Bool.noConfusion hg
      · rw [hl] at hg; exact Bool.noConfusion hg
    · rw [if_neg hguard]
      have hboth : reg.modelSupportsThinking model = true ∧
          reg.modelUsesThinkingLevels model = true := by
        constructor
        · cases hb : reg.modelSupportsThinking model with
          | false => exact absurd (by rw [hb]; simp) hguard
          | true => rfl
        · cases hb : reg.modelUsesThinkingLevels model with
          | false => exact absurd (by rw [hb]; simp) hguard
          | true => rfl
      cases hcf1 : validateCheckField reg model p "reasoning_effort" with
      | some e =>
        simp only [Option.isSome_some, true_iff]
        refine ⟨hboth.1, hboth.2, Or.inl ?_⟩
        exact (validateCheckField_isSome_iff reg model p "reasoning_effort").mp
          (by rw [hcf1]; rfl)
      | none =>
        rw [show (match (none : Option StatusErr) with
            | some e => some e
            | none => validateCheckField reg model p "reasoning.effort") =
            validateCheckField reg model p "reasoning.effort" from rfl]
        rw [validateCheckField_isSome_iff]
        constructor
        · intro h
          exact ⟨hboth.1, hboth.2, Or.inr h⟩
        · rintro ⟨_, _, h | h⟩
          · exact absurd ((validateCheckField_isSome_iff reg model p "reasoning_effort").mpr h)
              (by rw [hcf1]; simp)
          · exact h
  · intro e he
    rw [hunfold] at he
    by_cases hguard : (!reg.modelSupportsThinking model || !reg.modelUsesThinkingLevels model) = true
    · rw [if_pos hguard] at he
      exact Option.noConfusion he
    · rw [if_neg hguard] at he
      cases hcf1 : validateCheckField reg model p "reasoning_effort" with
      | some e1 =>
        rw [hcf1] at he
        cases he
        exact validateCheckField_code reg model p "reasoning_effort" e hcf1
      | none =>
        rw [hcf1] at he
        exact validateCheckField_code reg model p "reasoning.effort" e he

/-- Concrete instantiation of `validateThinkingConfig_400_iff`: an
unknown level `"ultra"` on a level-based model is rejected. -/
theorem validateThinkingConfig_400_iff_witness :
    (ValidateThinkingConfig levelRegistryExample
      (some (Json.obj [("reasoning_effort", Json.str "ultra")])) "gpt-5").isSome = true :=
  (validateThinkingConfig_400_iff levelRegistryExample
      (Json.obj [("reasoning_effort", Json.str "ultra")]) "gpt-5" (by decide)).1.mpr
    ⟨by decide, by decide, Or.inl ⟨Json.str "ultra", rfl, rfl⟩⟩

theorem getSegs_setSegs_first_cons (j : Json) (k : String) (rest rest' : List String)
    (v : Json) (hk : Json.segIndex? k = none) :
    Json.getSegs (Json.setSegs j (k :: rest) v) (k :: rest') =
      Json.getSegs (Json.setSegs (Json.childAt j k) rest v) rest' := by
  rw [show Json.getSegs (Json.setSegs j (k :: rest) v) (k :: rest') =
      (match Json.getSeg (Json.setSegs j (k :: rest) v) k with
       | some j' => Json.getSegs j' rest'
       | none => none) from rfl]
  rw [getSeg_setSegs_first j k rest v hk]

theorem childAt_setSegs_first (j : Json) (k : String) (rest : List String) (v : Json)
    (hk : Json.segIndex? k = none) :
    Json.childAt (Json.setSegs j (k :: rest) v) k = Json.setSegs (Json.childAt j k) rest v := by
  unfold Json.childAt
  rw [getSeg_setSegs_first j k rest v hk]
  rfl

theorem getSeg_of_getSegs_single (j : Json) (k : String) (th : Json)
    (h : Json.getSegs j [k] = some th) : Json.getSeg j k = some th := by
  rw [show Json.getSegs j [k] =
      (match Json.getSeg j k with
       | some j' => Json.getSegs j' []
       | none => none) from rfl] at h
  cases hg : Json.getSeg j k with
  | none => rw [hg] at h; exact Option.noConfusion h
  | some c => rw [hg] at h; exact h

/-- C7 (amended): Copilot Claude thinking normalization. With thinking
support, a positive effective `max_tokens` and a `thinking` block not
typed `disabled`: the clamped budget stays strictly below `max_tokens`;
the block is dropped exactly when the clamped budget is positive yet
falls below the (positive) model minimum — a clamped budget of zero or
less is kept, not dropped; otherwise `thinking.type` becomes
`"enabled"` and `thinking.budget_tokens` the clamped budget;
`max_tokens` is ensured (falling back to the registry value) and never
altered by the clamp phase. -/
theorem copilot_claude_thinking_normalization (reg : ThinkingRegistry) (model : String)
    (body th b1 : Json) (maxVal normalized minB : Int) (r : Json)
    (hb1 : b1 = copilotEnsureMaxTokens reg model body)
    (hmaxVal : maxVal = optInt (Json.getPath b1 "max_tokens"))
    (hnorm : normalized =
      copilotClampedBudget reg model maxVal (optInt (Json.getPath th "budget_tokens")))
    (hminB : minB = minThinkingBudget reg model)
    (hr : r = normalizeCopilotClaudeThinking reg model body)
    (hsup : reg.modelSupportsThinking model = true)
    (hmax : 0 < maxVal)
    (hth : Json.getPath b1 "thinking" = some th)
    (htype : goToLowerS (goTrimSpaceS (optString (Json.getPath th "type"))) ≠ "disabled")
    (hnodup : (Json.topKeys b1).Nodup) :
    normalized < maxVal ∧
    (minB > 0 ∧ normalized > 0 ∧ normalized < minB →
      Json.getPath r "thinking" = none ∧
      Json.getPath r "max_tokens" = Json.getPath b1 "max_tokens") ∧
    (¬(minB > 0 ∧ normalized > 0 ∧ normalized < minB) →
      Json.getPath r "thinking.type" = some (Json.str "enabled") ∧
      Json.getPath r "thinking.budget_tokens" = some (Json.num normalized) ∧
      Json.getPath r "max_tokens" = Json.getPath b1 "max_tokens") ∧
    ((Json.getPath body "max_tokens").isSome = true ∨
      (∃ info, reg.getModelInfo model = some info ∧ 0 < info.maxCompletionTokens) →
      (Json.getPath b1 "max_tokens").isSome = true) := by
  subst hb1 hmaxVal hnorm hminB hr
  have hr2 : normalizeCopilotClaudeThinking reg model body =
      normalizeCopilotThinkingEnsured reg model (copilotEnsureMaxTokens reg model body) := by
    unfold normalizeCopilotClaudeThinking
    rw [if_neg (by simp [hsup])]
  have hr3 : normalizeCopilotThinkingEnsured reg model (copilotEnsureMaxTokens reg model body) =
      (if minThinkingBudget reg model > 0 ∧
          copilotClampedBudget reg model
            (optInt (Json.getPath (copilotEnsureMaxTokens reg model body) "max_tokens"))
            (optInt (Json.getPath th "budget_tokens")) > 0 ∧
          copilotClampedBudget reg model
            (optInt (Json.getPath (copilotEnsureMaxTokens reg model body) "max_tokens"))
            (optInt (Json.getPath th "budget_tokens")) < minThinkingBudget reg model then
        Json.delPath (copilotEnsureMaxTokens reg model body) "thinking"
      else
        Json.setPath
          (Json.setPath (copilotEnsureMaxTokens reg model body) "thinking.type"
            (Json.str "enabled"))
          "thinking.budget_tokens"
          (Json.num (copilotClampedBudget reg model
            (optInt (Json.getPath (copilotEnsureMaxTokens reg model body) "max_tokens"))
            (optInt (Json.getPath th "budget_tokens"))))) := by
    unfold normalizeCopilotThinkingEnsured
    rw [if_neg (by omega)]
    simp only [hth]
    rw [if_neg htype]
  refine ⟨?_, ?_, ?_, ?_⟩
  · simp only [copilotClampedBudget]
    split
    · omega
    · omega
  · intro hcond
    rw [hr2, hr3, if_pos hcond]
    have hsegthink : Json.splitPath "thinking" = ["thinking"] := rfl
    cases hb : copilotEnsureMaxTokens reg model body with
    | obj fields =>
      constructor
      · show Json.getSegs _ (Json.splitPath "thinking") = none
        rw [hsegthink]
        show (match Json.getSeg (Json.delPath (Json.obj fields) "thinking") "thinking" with
          | some j' => Json.getSegs j' []
          | none => none) = none
        rw [show Json.delPath (Json.obj fields) "thinking" =
            Json.obj (Json.removeField fields "thinking") from rfl]
        show (match Json.lookupField (Json.removeField fields "thinking") "thinking" with
          | some j' => Json.getSegs j' []
          | none => none) = none
        rw [lookupField_removeField_self fields "thinking" (by
          have := hnodup
          rw [hb] at this
          exact this)]
      · show Json.getSegs _ (Json.splitPath "max_tokens") = _
        rw [show Json.splitPath "max_tokens" = ["max_tokens"] from rfl]
        rw [show Json.delPath (Json.obj fields) "thinking" =
            Json.delSegs (Json.obj fields) ["thinking"] from rfl]
        rw [getSegs_delSegs_single_ne (Json.obj fields) "thinking" "max_tokens" []
          (by decide) rfl]
        rfl
    | arr elems =>
      exfalso
      rw [hb] at hth
      exact Option.noConfusion hth
    | null =>
      exfalso
      rw [hb] at hth
      exact Option.noConfusion hth
    | bool b =>
      exfalso
      rw [hb] at hth
      exact Option.noConfusion hth
    | num n =>
      exfalso
      rw [hb] at hth
      exact Option.noConfusion hth
    | str s =>
      exfalso
      rw [hb] at hth
      exact Option.noConfusion hth
  · intro hcond
    rw [hr2, hr3, if_neg hcond]
    have hgetseg : Json.getSeg (copilotEnsureMaxTokens reg model body) "thinking" = some th :=
      getSeg_of_getSegs_single _ "thinking" th hth
    have hchild : Json.childAt (copilotEnsureMaxTokens reg model body) "thinking" = th := by
      unfold Json.childAt
      rw [hgetseg]
    refine ⟨?_, ?_, ?_⟩
    · show Json.getSegs _ (Json.splitPath "thinking.type") = _
      rw [show Json.splitPath "thinking.type" = ["thinking", "type"] from rfl]
      rw [show Json.setPath
          (Json.setPath (copilotEnsureMaxTokens reg model body) "thinking.type"
            (Json.str "enabled")) "thinking.budget_tokens" _ =
        Json.setSegs
          (Json.setSegs (copilotEnsureMaxTokens reg model body) ["thinking", "type"]
            (Json.str "enabled")) ["thinking", "budget_tokens"] _ from rfl]
      rw [getSegs_setSegs_first_cons _ "thinking" ["budget_tokens"] ["type"] _ rfl]
      rw [childAt_setSegs_first _ "thinking" ["type"] _ rfl]
      rw [hchild]
      rw [getSegs_setSegs_ne_first _ "budget_tokens" "type" [] [] _ (by decide) rfl rfl]
      exact getSegs_setSegs_self ["type"] th (Json.str "enabled")
    · show Json.getSegs _ (Json.splitPath "thinking.budget_tokens") = _
      rw [show Json.splitPath "thinking.budget_tokens" = ["thinking", "budget_tokens"] from rfl]
      exact getSegs_setSegs_self ["thinking", "budget_tokens"] _ _
    · show Json.getSegs _ (Json.splitPath "max_tokens") = _
      rw [show Json.splitPath "max_tokens" = ["max_tokens"] from rfl]
      rw [show Json.setPath
          (Json.setPath (copilotEnsureMaxTokens reg model body) "thinking.type"
            (Json.str "enabled")) "thinking.budget_tokens" _ =
        Json.setSegs
          (Json.setSegs (copilotEnsureMaxTokens reg model body) ["thinking", "type"]
            (Json.str "enabled")) ["thinking", "budget_tokens"] _ from rfl]
      rw [getSegs_setSegs_ne_first _ "thinking" "max_tokens" ["budget_tokens"] [] _
        (by decide) rfl rfl]
      rw [getSegs_setSegs_ne_first _ "thinking" "max_tokens" ["type"] [] _
        (by decide) rfl rfl]
      rfl
  · intro hpre
    unfold copilotEnsureMaxTokens
    cases hca : (Json.getPath body "max_tokens").isSome with
    | true => simp [hca]
    | false =>
      rcases hpre with hsome | ⟨info, hinfo, hpos⟩
      · rw [hca] at hsome
        exact Bool.noConfusion hsome
      · rw [if_neg Bool.false_ne_true]
        simp only [hinfo]
        rw [if_pos hpos]
        show (Json.getSegs _ (Json.splitPath "max_tokens")).isSome = true
        rw [show Json.splitPath "max_tokens" = ["max_tokens"] from rfl]
        rw [show Json.setPath body "max_tokens" (Json.num info.maxCompletionTokens) =
          Json.setSegs body ["max_tokens"] (Json.num info.maxCompletionTokens) from rfl]
        rw [getSegs_setSegs_self ["max_tokens"] body (Json.num info.maxCompletionTokens)]
        rfl

/-- Concrete instantiation of `copilot_claude_thinking_normalization`:
a 5000-token budget against `max_tokens = 2000` is clamped to 1999 and
the block is kept with `thinking.type = "enabled"`. -/
theorem copilot_claude_thinking_normalization_witness :
    Json.getPath
        (normalizeCopilotClaudeThinking budgetRegistryExample "claude-sonnet-4-5"
          copilotBodyExample) "thinking.type" = some (Json.str "enabled") :=
  ((copilot_claude_thinking_normalization budgetRegistryExample "claude-sonnet-4-5"
      copilotBodyExample
      (Json.obj [("type", Json.str "auto"), ("budget_tokens", Json.num 5000)])
      (copilotEnsureMaxTokens budgetRegistryExample "claude-sonnet-4-5" copilotBodyExample)
      2000 1999 1024
      (normalizeCopilotClaudeThinking budgetRegistryExample "claude-sonnet-4-5"
        copilotBodyExample)
      rfl rfl rfl rfl rfl (by decide) (by decide) rfl (by decide) (by decide)).2.2.1
    (by decide)).1

/-- C7 counterexample: at `max_tokens = 1` the requested 5000-token
budget is clamped to 0, which is below the model's 1024 minimum, yet
the thinking block is not dropped: the code's drop guard also requires
the clamped budget to be positive, so the block is kept with
`type = "enabled"` and `budget_tokens = 0`. -/
theorem copilot_thinking_drop_counterexample :
    copilotClampedBudget budgetRegistryExample "claude-sonnet-4-5" 1 5000 = 0 ∧
    minThinkingBudget budgetRegistryExample "claude-sonnet-4-5" = 1024 ∧
    Json.getPath (normalizeCopilotClaudeThinking budgetRegistryExample "claude-sonnet-4-5"
      copilotTinyBodyExample) "thinking.type" = some (Json.str "enabled") ∧
    Json.getPath (normalizeCopilotClaudeThinking budgetRegistryExample "claude-sonnet-4-5"
      copilotTinyBodyExample) "thinking.budget_tokens" = some (Json.num 0) :=
  ⟨by decide, by decide, rfl, rfl⟩

/-- Claim C9 counterexample: the source matcher literally consumes a
`*` of the model against a `*` of the pattern and then cannot
backtrack, so `"*x"` fails to match `"**x"` although the glob semantics
of the specification accepts it. -/
theorem matchModelPattern_star_counterexample :
    matchModelPattern "*x" "**x" = false ∧ GlobSpec "*x".data "**x".data := by
  constructor
  · decide
  · exact GlobSpec.starMore (GlobSpec.starMore (GlobSpec.starZero
      (GlobSpec.lit (by decide) GlobSpec.nil)))

/-- Claim C9 (amended): on models whose trimmed text contains no `*`,
`matchModelPattern` decides exactly the specification's glob semantics
applied to the whitespace-trimmed pattern and model, with the empty
trimmed pattern matching nothing. -/
theorem matchModelPattern_glob (pattern model : String)
    (hm : ∀ c ∈ goTrimSpace model.data, c ≠ '*') :
    (matchModelPattern pattern model = true ↔
      (goTrimSpace pattern.data ≠ [] ∧
        GlobSpec (goTrimSpace pattern.data) (goTrimSpace model.data))) := by
  simp only [matchModelPattern]
  by_cases hp : goTrimSpace pattern.data = []
  · simp [hp]
  · rw [if_neg hp]
    by_cases hpstar : goTrimSpace pattern.data = ['*']
    · rw [if_pos hpstar, hpstar]
      exact ⟨fun _ => ⟨by simp, globSpec_star_univ _⟩, fun _ => rfl⟩
    · rw [if_neg hpstar]
      have hinit : LoopInv (goTrimSpace pattern.data) (goTrimSpace model.data) 0 0 none 0 :=
        ⟨Nat.zero_le _, Nat.zero_le _, le_refl 0, trivial⟩
      have hfuel : loopMeasure (goTrimSpace pattern.data) (goTrimSpace model.data) 0 0 0 ≤
          matchFuel (goTrimSpace pattern.data) (goTrimSpace model.data) := by
        simp only [loopMeasure, matchFuel, Nat.sub_zero]
        rw [Nat.add_mul, Nat.one_mul]
        omega
      rw [matchLoopF_spec (goTrimSpace pattern.data) (goTrimSpace model.data) hm _ 0 0 none 0
        hfuel hinit]
      simp only [LoopSpec, List.drop_zero]
      rw [globMatch_iff_globSpec]
      exact ⟨fun h => ⟨hp, h⟩, fun h => h.2⟩

/-- Concrete instantiation of `matchModelPattern_glob` on a star-free
model string. -/
theorem matchModelPattern_glob_witness :
    (matchModelPattern "gemini-*-pro" "gemini-2.5-pro" = true ↔
      (goTrimSpace "gemini-*-pro".data ≠ [] ∧
        GlobSpec (goTrimSpace "gemini-*-pro".data) (goTrimSpace "gemini-2.5-pro".data))) :=
  matchModelPattern_glob "gemini-*-pro" "gemini-2.5-pro" (by decide)

theorem generateStableSessionID_of_firstUserText (p : Json) (t : String)
    (h : firstUserText p = some t) :
    generateStableSessionID p = SessionID.stable (stableSessionFromText t) := by
  unfold firstUserText at h
  unfold generateStableSessionID
  cases hg : Json.getPath p "request.contents" with
  | none =>
    rw [hg] at h
    exact absurd h (by simp)
  | some contents =>
    rw [hg] at h
    cases contents with
    | arr elems =>
      simp only at h
      simp only [Json.isArray, if_true, h]
    | null => exact absurd h (by simp)
    | bool b => exact absurd h (by simp)
    | num n => exact absurd h (by simp)
    | str s => exact absurd h (by simp)
    | obj fields => exact absurd h (by simp)

theorem generateStableSessionID_of_no_text (p : Json)
    (h : firstUserText p = none) :
    generateStableSessionID p = SessionID.random := by
  unfold firstUserText at h
  unfold generateStableSessionID
  cases hg : Json.getPath p "request.contents" with
  | none => simp
  | some contents =>
    rw [hg] at h
    cases contents with
    | arr elems =>
      simp only at h
      simp only [Json.isArray, if_true, h]
    | null => simp [Json.isArray]
    | bool b => simp [Json.isArray]
    | num n => simp [Json.isArray]
    | str s => simp [Json.isArray]
    | obj fields => simp [Json.isArray]

/-- Claim C5: the Antigravity session identifier is a function of the
first non-empty user text alone — two payloads with the same first user
text share the identifier, the identifier is the masked big-endian head
of the text's SHA-256 digest, and without such a text it comes from the
random source. -/
theorem antigravity_session_id_deterministic :
    (∀ p1 p2 t, firstUserText p1 = some t → firstUserText p2 = some t →
      generateStableSessionID p1 = generateStableSessionID p2) ∧
    (∀ p t, firstUserText p = some t →
      generateStableSessionID p = SessionID.stable
        ("-" ++ Json.natDigits (beUint64 ((sha256 (strBytes t)).take 8) % 2 ^ 63))) ∧
    (∀ q, firstUserText q = none → generateStableSessionID q = SessionID.random) := by
  refine ⟨?_, ?_, ?_⟩
  · intro p1 p2 t h1 h2
    rw [generateStableSessionID_of_firstUserText p1 t h1,
      generateStableSessionID_of_firstUserText p2 t h2]
  · intro p t h
    rw [generateStableSessionID_of_firstUserText p t h]
    rfl
  · intro q h
    exact generateStableSessionID_of_no_text q h

/-- Concrete instantiation of `antigravity_session_id_deterministic`:
two different payloads sharing the first user text `"hi"` get the same
session identifier. -/
theorem antigravity_session_id_deterministic_witness :
    generateStableSessionID
        (Json.obj [("request", Json.obj [("contents", Json.arr
          [Json.obj [("role", Json.str "user"),
            ("parts", Json.arr [Json.obj [("text", Json.str "hi")]])]])])]) =
      generateStableSessionID
        (Json.obj [("model", Json.str "gemini"),
          ("request", Json.obj [("contents", Json.arr
            [Json.obj [("role", Json.str "model"),
              ("parts", Json.arr [Json.obj [("text", Json.str "yo")]])],
             Json.obj [("role", Json.str "user"),
              ("parts", Json.arr [Json.obj [("text", Json.str "hi")]])]])])]) :=
  antigravity_session_id_deterministic.1 _ _ "hi" (by decide) (by decide)

/-- Claim C3: `ensureAccessToken` keeps the cached Antigravity access
token exactly when it is non-empty and expires more than the refresh
lead (`refreshSkew`, 50 minutes) in the future, and refreshes
otherwise; the authenticator-level default lead is 5 minutes. -/
theorem antigravity_token_refresh_decision :
    (∀ md now, ensureAccessToken (some md) now =
        EnsureTokenOutcome.cached (metaStringValue md "access_token") ↔
        (metaStringValue md "access_token" ≠ "" ∧ tokenExpiry md > now + refreshSkew)) ∧
    (∀ md now, ensureAccessToken (some md) now = EnsureTokenOutcome.refresh ↔
        ¬(metaStringValue md "access_token" ≠ "" ∧ tokenExpiry md > now + refreshSkew)) ∧
    refreshSkew = 50 * minute ∧
    antigravityAuthenticatorRefreshLead = 5 * minute := by
  refine ⟨?_, ?_, by norm_num [refreshSkew, minute, second],
      by norm_num [antigravityAuthenticatorRefreshLead, minute, second]⟩
  · intro md now
    simp only [ensureAccessToken]
    split_ifs with h
    · simp [h]
    · simp [h]
  · intro md now
    simp only [ensureAccessToken]
    split_ifs with h
    · simp [h]
    · simp [h]

/-- Concrete instantiation of `antigravity_token_refresh_decision`: a
token with one hour of validity is served from cache at time zero. -/
theorem antigravity_token_refresh_decision_witness :
    ensureAccessToken
      (some [("access_token", MetaVal.str "tok"), ("expires_in", MetaVal.int 3600),
        ("timestamp", MetaVal.int 0)]) 0 = EnsureTokenOutcome.cached "tok" :=
  (antigravity_token_refresh_decision.1
    [("access_token", MetaVal.str "tok"), ("expires_in", MetaVal.int 3600),
      ("timestamp", MetaVal.int 0)] 0).mpr (by decide)

/-- Concrete instantiation of `antigravity_retry_schedule`: attempt 8 is
capped at 2 s, and a negative per-auth override still yields one attempt. -/
theorem antigravity_retry_schedule_witness :
    antigravityNoCapacityRetryDelay 8 = min ((8 + 1) * (250 * millisecond)) (2 * second) ∧
    antigravityRetryAttempts (some ⟨some (-5)⟩) (some ⟨3⟩) =
      max 1 (1 + configuredRequestRetry (some ⟨some (-5)⟩) (some ⟨3⟩)) :=
  ⟨antigravity_retry_schedule.1 8 (by decide),
   antigravity_retry_schedule.2 (some ⟨some (-5)⟩) (some ⟨3⟩)⟩

/-- C8 counterexample: on the spec's fixture body the repair succeeds
but produces a string that keeps the input's interior whitespace, not
the compact string the spec prints. -/
theorem jsonRepair_compact_counterexample :
    attemptJSONRepair malformedToolCallFixture ≠ some claimedRepairFixture ∧
    attemptJSONRepair malformedToolCallFixture = some repairedToolCallFixture ∧
    repairedToolCallFixture ≠ claimedRepairFixture :=
  ⟨by decide, by decide, by decide⟩

/-- C8 (amended): on the malformed fixture the repair succeeds and
yields the whitespace-preserving repaired string; that string and the
spec's compact string parse to the same JSON object; whenever
`attemptJSONRepair` reports success its result is valid JSON; and the
synthetic tool-call chunk built from the fixture output carries the
function name "search", the repaired text as arguments, and the model. -/
theorem jsonRepair_malformed_tool_call :
    attemptJSONRepair malformedToolCallFixture = some repairedToolCallFixture ∧
    parseJson repairedToolCallFixture = some repairFixtureTree ∧
    parseJson claimedRepairFixture = some repairFixtureTree ∧
    (∀ raw s, attemptJSONRepair raw = some s → jsonValid s = true) ∧
    createRepairedToolCallChunk repairedToolCallFixture "gemini-2.5-pro" =
      some ⟨some (Json.str "search"), repairedToolCallFixture, "gemini-2.5-pro"⟩ := by
  refine ⟨by decide, rfl, rfl, ?_, rfl⟩
  intro raw s h
  simp only [attemptJSONRepair] at h
  split_ifs at h with h1 h2 h3
  · simp only [Option.some.injEq] at h
    subst h
    exact h2
  · simp only [Option.some.injEq] at h
    subst h
    exact h3

/-- Witness for the hypothesis-bearing conjunct of the C8 theorem: the
validity of the fixture's repaired output follows from applying it at
the fixture. -/
theorem jsonRepair_malformed_tool_call_witness :
    jsonValid repairedToolCallFixture = true :=
  jsonRepair_malformed_tool_call.2.2.2.1 malformedToolCallFixture repairedToolCallFixture
    (by decide)

/-- C2: for every rule values and every `ParseSuffix` model,
`applyPayloadConfigWithRoot` on the example rule set applies the
classes in order default, default-raw, override, override-raw, filter
with all paths under the root `request`: `a` (present in the original)
is skipped by defaults and then deleted by the filter; `b` is written
by the first matching default rule and withheld from the later default
and default-raw rules (first-write-wins); `c` and `d` are fresh default
writes (typed and raw); `x` stays absent because its raw value is
rejected; `e` ends at the override-raw value after two override writes
(always-write, last-write-wins); `h`, absent in the original though
present in the working copy, is overwritten by its default; `k`,
present in the original though absent from the working copy, is not
written; `z` and `w` stay absent because their rules fail the model
pattern and the protocol restriction. -/
theorem payload_rules_semantics (ps : String → ParsedSuffix)
    (va vb1 vb2 vbr vc vd ve1 ve2 ve3 vh vk vz vw : Json) :
    Json.getPath (payloadRulesResult ps va vb1 vb2 vbr vc vd ve1 ve2 ve3 vh vk vz vw)
      "request.a" = none ∧
    Json.getPath (payloadRulesResult ps va vb1 vb2 vbr vc vd ve1 ve2 ve3 vh vk vz vw)
      "request.b" = some vb1 ∧
    Json.getPath (payloadRulesResult ps va vb1 vb2 vbr vc vd ve1 ve2 ve3 vh vk vz vw)
      "request.c" = some vc ∧
    Json.getPath (payloadRulesResult ps va vb1 vb2 vbr vc vd ve1 ve2 ve3 vh vk vz vw)
      "request.d" = some vd ∧
    Json.getPath (payloadRulesResult ps va vb1 vb2 vbr vc vd ve1 ve2 ve3 vh vk vz vw)
      "request.x" = none ∧
    Json.getPath (payloadRulesResult ps va vb1 vb2 vbr vc vd ve1 ve2 ve3 vh vk vz vw)
      "request.e" = some ve3 ∧
    Json.getPath (payloadRulesResult ps va vb1 vb2 vbr vc vd ve1 ve2 ve3 vh vk vz vw)
      "request.h" = some vh ∧
    Json.getPath (payloadRulesResult ps va vb1 vb2 vbr vc vd ve1 ve2 ve3 vh vk vz vw)
      "request.k" = none ∧
    Json.getPath (payloadRulesResult ps va vb1 vb2 vbr vc vd ve1 ve2 ve3 vh vk vz vw)
      "request.z" = none ∧
    Json.getPath (payloadRulesResult ps va vb1 vb2 vbr vc vd ve1 ve2 ve3 vh vk vz vw)
      "request.w" = none ∧
    Json.getPath (payloadRulesResult ps va vb1 vb2 vbr vc vd ve1 ve2 ve3 vh vk vz vw)
      "request.y" = none :=
  ⟨rfl, rfl, rfl, rfl, rfl, rfl, rfl, rfl, rfl, rfl, rfl⟩

/-- C10: for every serialized-size function, thresholds, and tools
list, `compressToolsIfNeeded` returns a list of the same length whose
tools carry, position for position, the same names as the input, and
when the serialized size is within the target threshold the input list
is returned unchanged; in the compressing branches only the schema and
description components of the returned copies are rebuilt. -/
theorem kiro_tool_compression_frame (toolsSize : List KiroToolWrapper → Nat)
    (targetSize minDescLen : Nat) (tools : List KiroToolWrapper) :
    (compressToolsIfNeeded toolsSize targetSize minDescLen tools).length = tools.length ∧
    (compressToolsIfNeeded toolsSize targetSize minDescLen tools).map
        (fun t => t.toolSpecification.name) =
      tools.map (fun t => t.toolSpecification.name) ∧
    (toolsSize tools ≤ targetSize →
      compressToolsIfNeeded toolsSize targetSize minDescLen tools = tools) := by
  refine ⟨?_, ?_, ?_⟩
  · simp only [compressToolsIfNeeded]
    split_ifs <;> simp [List.map_map]
  · simp only [compressToolsIfNeeded]
    split_ifs <;> simp [List.map_map]
  · intro hc
    simp only [compressToolsIfNeeded]
    split_ifs <;> first | rfl | exact absurd hc (by assumption)

/-- Witness for the C10 theorem's threshold conjunct at a concrete
tool list and size function. -/
theorem kiro_tool_compression_frame_witness :
    compressToolsIfNeeded (fun _ => 0) 10 4 [kiroToolExample] = [kiroToolExample] :=
  (kiro_tool_compression_frame (fun _ => 0) 10 4 [kiroToolExample]).2.2 (by decide)

/-- Invariant run of the stream attempt loop over the bare-429
fixture: starting at attempt `attempt = m - k` with call counter equal
to the attempt, every remaining 429 restarts the outer loop, and the
first 200 (at call `m`) yields the stream. -/
theorem streamLoop_bare429_aux (m attempts : Nat) (hma : m < attempts) :
    ∀ k attempt, attempt + k = m →
      streamAttemptLoop (fun _ => none) (bare429Upstream m) (fun _ => false) attempts
        antigravityDefaultBaseURLs (attempts - attempt) attempt attempt = .stream m := by
  intro k
  induction k with
  | zero =>
    intro attempt hsum
    have hattempt : attempt = m := by omega
    subst hattempt
    obtain ⟨r, hr⟩ : ∃ r, attempts - attempt = r + 1 := ⟨attempts - attempt - 1, by omega⟩
    rw [hr]
    simp [streamAttemptLoop, streamAttemptInner, antigravityDefaultBaseURLs, bare429Upstream]
  | succ k ih =>
    intro attempt hsum
    have hlt : attempt < m := by omega
    have hlt2 : attempt < attempts - 1 := by omega
    obtain ⟨r, hr⟩ : ∃ r, attempts - attempt = r + 1 := ⟨attempts - attempt - 1, by omega⟩
    have hrw : r = attempts - (attempt + 1) := by omega
    rw [hr, hrw]
    simp [streamAttemptLoop, streamAttemptInner, antigravityDefaultBaseURLs,
      bare429Upstream, isBare429, hlt, hlt2]
    exact ih (attempt + 1) (by omega)

/-- C1 counterexample: on the default base URLs with bare 429s on the
first three calls and 200 thereafter (m = 3 below attempts = 4),
`ExecuteStream` retries internally and returns a stream, but `Execute`
— which has no outer attempt loop — exhausts its three base URLs and
surfaces the 429 to the client. -/
theorem antigravity_execute_429_counterexample :
    antigravityExecute (fun _ => none) (bare429Upstream 3) antigravityDefaultBaseURLs =
      ExecResult.failure ⟨429, "", none⟩ ∧
    antigravityExecuteStream (fun _ => none) (bare429Upstream 3) (fun _ => false) 4
      antigravityDefaultBaseURLs = StreamResult.stream 3 :=
  ⟨by decide, by decide⟩

/-- C1 (amended): with bare 429s on the first `m` upstream calls and
200 thereafter, `ExecuteStream` with `m < attempts` always returns a
stream (the 429 is never surfaced), while `Execute` retries only
across its three base URLs within the single pass: it succeeds exactly
when `m < 3` and surfaces the bare 429 otherwise, regardless of the
configured attempts. -/
theorem antigravity_bare429_handling (m attempts : Nat) (hm : m < attempts) :
    antigravityExecuteStream (fun _ => none) (bare429Upstream m) (fun _ => false) attempts
      antigravityDefaultBaseURLs = StreamResult.stream m ∧
    (m < 3 → antigravityExecute (fun _ => none) (bare429Upstream m) antigravityDefaultBaseURLs =
      ExecResult.success "ok") ∧
    (3 ≤ m → antigravityExecute (fun _ => none) (bare429Upstream m) antigravityDefaultBaseURLs =
      ExecResult.failure ⟨429, "", none⟩) := by
  refine ⟨?_, ?_, ?_⟩
  · have h := streamLoop_bare429_aux m attempts hm m 0 (by omega)
    simpa [antigravityExecuteStream] using h
  · intro h3
    interval_cases m <;> decide
  · intro h3
    simp [antigravityExecute, antigravityExecuteLoop, antigravityDefaultBaseURLs,
      bare429Upstream, (show 0 < m by omega), (show 1 < m by omega), (show 2 < m by omega)]

/-- Witness for the C1 theorem at m = 2 bare 429s and 4 attempts: the
stream is established at call 2 and `Execute` still succeeds through
base-URL fallback. -/
theorem antigravity_bare429_handling_witness :
    antigravityExecuteStream (fun _ => none) (bare429Upstream 2) (fun _ => false) 4
      antigravityDefaultBaseURLs = StreamResult.stream 2 ∧
    antigravityExecute (fun _ => none) (bare429Upstream 2) antigravityDefaultBaseURLs =
      ExecResult.success "ok" :=
  ⟨(antigravity_bare429_handling 2 4 (by decide)).1,
   (antigravity_bare429_handling 2 4 (by decide)).2.1 (by decide)⟩

end ModelGate
